import Mathlib

/-!
Formal model of the bridgy-fed cross-protocol data model (`models.py`).

Each section shallowly embeds one component of the source: pure functions
become Lean functions, datastore state becomes explicit list-valued stores,
transactional writes become `Except`-valued functions that return the new
store only on success.  External collaborators (granary conversions, the
`ids` module, the memcache client) are modelled as explicit parameters or,
where the spec describes them, as definitions written from the spec.
-/

namespace BridgyFed

/-- Substring occurrence on character lists: true when `sub` occurs as a
contiguous infix of the second list. -/
def charsInfix (sub : List Char) : List Char → Bool
  | [] => sub.isEmpty
  | c :: rest => sub.isPrefixOf (c :: rest) || charsInfix sub rest

/-- Python `sub in s` substring membership for strings. -/
def strIn (sub s : String) : Bool := charsInfix sub.data s.data

/-- Target (`models.Target`): a protocol label + URI pair identifying an
object or user copy in another protocol. Equality is over both fields only,
matching the source `__eq__`/`__hash__`. -/
structure Target where
  uri : String
  protocol : String
deriving DecidableEq, Repr

namespace StatusC

/-- Profile data drawn from `user.obj.as1`, as consulted by `User.status`.
`summaryText` is the result of the external `html_to_text` call on the
profile summary (text extraction is an external library; we embed its
output). `published` is a timestamp; `isPublic` is the external
`as1.is_public(..., unlisted=False)` verdict on the profile. -/
structure Profile where
  image : Bool
  displayName : Option String
  published : Option Nat
  summaryText : String
  isPublic : Bool
deriving DecidableEq, Repr

/-- The fields of `models.User` (plus its protocol class constants
`REQUIRES_*`) consulted by the `status` computed property. `profile = none`
models a user with no loaded profile object (`not self.obj or not
self.obj.as1`). -/
structure User where
  id : String
  handle : Option String
  manual_opt_out : Bool
  enabled_protocols : List String
  REQUIRES_AVATAR : Bool
  REQUIRES_NAME : Bool
  REQUIRES_OLD_ACCOUNT : Bool
  profile : Option Profile
deriving DecidableEq, Repr

/-- The name gate of `User.status`: `not name or name in (self.handle,
self.key.id())`. -/
def nameMissing (u : User) (p : Profile) : Bool :=
  match p.displayName with
  | none => true
  | some n => n == "" || u.handle == some n || n == u.id

/-- The account-age gate: `util.now() - util.parse_iso8601(published) <
OLD_ACCOUNT_AGE`. Timestamps are naturals; a `published` in the future
truncates to age 0, which is below any positive threshold, as in the
source. -/
def tooNew (now oldAccountAge : Nat) (p : Profile) : Bool :=
  match p.published with
  | some t => now - t < oldAccountAge
  | none => false

/-- Translation of the `User.status` computed property, branch for branch:
manual opt out, missing profile, the three spam-filter gates, `#nobridge`,
explicit opt in, public visibility, `#nobot`. -/
def status (now oldAccountAge : Nat) (u : User) : Option String :=
  if u.manual_opt_out then some "opt-out"
  else match u.profile with
  | none => none
  | some p =>
    if u.REQUIRES_AVATAR && !p.image then some "blocked"
    else if u.REQUIRES_NAME && nameMissing u p then some "blocked"
    else if u.REQUIRES_OLD_ACCOUNT && tooNew now oldAccountAge p then some "blocked"
    else
      let summary := p.summaryText
      let name := p.displayName.getD ""
      if strIn "#nobridge" summary || strIn "#nobridge" name then some "opt-out"
      else if !u.enabled_protocols.isEmpty then none
      else if !p.isPublic then some "opt-out"
      else if strIn "#nobot" summary || strIn "#nobot" name then some "opt-out"
      else none

/-- A user whose profile carries the `#nobridge` marker and an explicit
protocol opt-in, but who fails the avatar spam-filter gate of an
avatar-requiring protocol. -/
def nobridgeBlockedUser : User :=
  { id := "did:plc:user"
    handle := some "user.bsky.social"
    manual_opt_out := false
    enabled_protocols := ["activitypub"]
    REQUIRES_AVATAR := true
    REQUIRES_NAME := false
    REQUIRES_OLD_ACCOUNT := false
    profile := some
      { image := false
        displayName := some "User"
        published := none
        summaryText := "#nobridge please"
        isPublic := true } }

end StatusC

namespace CopyC

/-- The protocol-class constants consulted by `get_copy`. -/
structure Proto where
  LABEL : String
  ABBREV : String
deriving DecidableEq, Repr

/-- The fields of `models.User` consulted by `User.get_copy`. -/
structure User where
  keyId : String
  LABEL : String
  copies : List Target
deriving DecidableEq, Repr

/-- The fields of `models.Object` consulted by `Object.get_copy`. -/
structure Object where
  keyId : String
  source_protocol : Option String
  copies : List Target
deriving DecidableEq, Repr

/-- The membership test `copy.protocol in (proto.LABEL, proto.ABBREV)`. -/
def matchesProto (p : Proto) (t : Target) : Bool :=
  t.protocol == p.LABEL || t.protocol == p.ABBREV

/-- Translation of `User.get_copy`: own label short-circuits to the key id,
otherwise the first matching copy Target wins. -/
def User.get_copy (u : User) (p : Proto) : Option String :=
  if u.LABEL == p.LABEL then some u.keyId
  else (u.copies.find? (matchesProto p)).map Target.uri

/-- The test `self.source_protocol in (proto.LABEL, proto.ABBREV)`
(`source_protocol` may be unset, in which case the membership test is
false). -/
def Object.nativeMatch (o : Object) (p : Proto) : Bool :=
  match o.source_protocol with
  | some l => l == p.LABEL || l == p.ABBREV
  | none => false

/-- Translation of `Object.get_copy`. -/
def Object.get_copy (o : Object) (p : Proto) : Option String :=
  if o.nativeMatch p then some o.keyId
  else (o.copies.find? (matchesProto p)).map Target.uri

end CopyC

namespace FollowerC

/-- A datastore key: entity kind (one kind per protocol-specific User
subclass, via `ProtocolUserMeta`) plus string id. -/
structure Key where
  kind : String
  id : String
deriving DecidableEq, Repr

/-- The fields of `models.Follower`. `follow` holds the key id of the last
follow activity Object. -/
structure Follower where
  from_ : Key
  to_ : Key
  follow : Option String
  status : String
deriving DecidableEq, Repr

/-- Keyword arguments accepted by `Follower.get_or_create` beyond `from_`
and `to_` (`none` means the argument was omitted). -/
structure FKwargs where
  follow : Option String
  status : Option String
deriving DecidableEq, Repr

/-- Python truthiness of the `kwargs` dict. -/
def FKwargs.nonempty (k : FKwargs) : Bool :=
  k.follow.isSome || k.status.isSome

/-- The `setattr(follower, prop, val)` update loop over supplied kwargs. -/
def Follower.applyKwargs (f : Follower) (k : FKwargs) : Follower :=
  { f with
    follow := match k.follow with | some v => some v | none => f.follow
    status := match k.status with | some v => v | none => f.status }

/-- The `Follower(from_=..., to_=..., **kwargs)` constructor: `status`
defaults to `active`. -/
def Follower.new (from_ to_ : Key) (k : FKwargs) : Follower :=
  { from_ := from_, to_ := to_, follow := k.follow, status := k.status.getD "active" }

/-- The `_pre_put_hook` assertion: a commit fails unless the two user keys
have different kinds, i.e. different protocols. -/
def Follower.prePutOk (f : Follower) : Bool :=
  f.from_.kind != f.to_.kind

/-- Translation of `Follower.get_or_create`: transactional find-or-insert
by the `(from_, to_)` pair; an existing edge is updated (and re-committed)
only when kwargs were supplied. Commits run `_pre_put_hook`; a failed
assertion aborts the transaction, leaving the store unchanged (`error`). -/
def get_or_create (store : List Follower) (from_ to_ : Key) (k : FKwargs) :
    Except Unit (List Follower × Follower) :=
  match store.find? (fun f => f.from_ == from_ && f.to_ == to_) with
  | none =>
      let f := Follower.new from_ to_ k
      if f.prePutOk then .ok (store ++ [f], f) else .error ()
  | some f =>
      if k.nonempty then
        let f2 := f.applyKwargs k
        if f2.prePutOk then
          .ok (store.map (fun g => if g.from_ == from_ && g.to_ == to_ then f2 else g), f2)
        else .error ()
      else .ok (store, f)

/-- Invariant of C3: every stored Follower edge is cross-protocol. -/
def crossProtocol (store : List Follower) : Prop :=
  ∀ f ∈ store, f.from_.kind ≠ f.to_.kind

end FollowerC

/-- C3: starting from any store of cross-protocol Follower edges, a
`get_or_create` on a same-protocol pair of user keys fails (the
`_pre_put_hook` assertion aborts the commit), and every successful
`get_or_create` — whether it creates or updates an edge — returns a
cross-protocol edge and preserves the invariant that all stored edges are
cross-protocol. -/
theorem follower_cross_protocol_invariant (store : List FollowerC.Follower)
    (from_ to_ : FollowerC.Key) (k : FollowerC.FKwargs)
    (hinv : FollowerC.crossProtocol store) :
    (from_.kind = to_.kind → FollowerC.get_or_create store from_ to_ k = .error ())
    ∧ (∀ store2 f, FollowerC.get_or_create store from_ to_ k = .ok (store2, f)
       → f.from_.kind ≠ f.to_.kind ∧ FollowerC.crossProtocol store2) := by
  constructor
  · intro hsame
    have hfind : store.find? (fun f => f.from_ == from_ && f.to_ == to_) = none := by
      rw [List.find?_eq_none]
      intro f hf hpred
      simp only [Bool.and_eq_true, beq_iff_eq] at hpred
      exact hinv f hf (by rw [hpred.1, hpred.2]; exact hsame)
    unfold FollowerC.get_or_create
    rw [hfind]
    have : (FollowerC.Follower.new from_ to_ k).prePutOk = false := by
      simp [FollowerC.Follower.prePutOk, FollowerC.Follower.new, hsame]
    simp [this]
  · intro store2 f hok
    unfold FollowerC.get_or_create at hok
    cases hfind : store.find? (fun g => g.from_ == from_ && g.to_ == to_) with
    | none =>
      rw [hfind] at hok
      by_cases hpre : (FollowerC.Follower.new from_ to_ k).prePutOk
      · rw [if_pos hpre] at hok
        cases hok
        have hk : (FollowerC.Follower.new from_ to_ k).from_.kind ≠
            (FollowerC.Follower.new from_ to_ k).to_.kind := by
          simpa [FollowerC.Follower.prePutOk, bne_iff_ne] using hpre
        refine ⟨hk, ?_⟩
        intro g hg
        rcases List.mem_append.1 hg with hg1 | hg2
        · exact hinv g hg1
        · rcases List.mem_singleton.1 hg2 with rfl
          exact hk
      · rw [if_neg hpre] at hok
        cases hok
    | some f0 =>
      rw [hfind] at hok
      dsimp only at hok
      have hf0mem : f0 ∈ store := List.mem_of_find?_eq_some hfind
      have hf0 : f0.from_.kind ≠ f0.to_.kind := hinv f0 hf0mem
      by_cases hne : k.nonempty
      · rw [if_pos hne] at hok
        have hkinds : (f0.applyKwargs k).from_.kind ≠ (f0.applyKwargs k).to_.kind := by
          simpa [FollowerC.Follower.applyKwargs] using hf0
        by_cases hpre : (f0.applyKwargs k).prePutOk
        · rw [if_pos hpre] at hok
          cases hok
          refine ⟨hkinds, ?_⟩
          intro g hg
          rcases List.mem_map.1 hg with ⟨g0, hg0, hgeq⟩
          by_cases hc : (g0.from_ == from_ && g0.to_ == to_) = true
          · rw [if_pos hc] at hgeq
            rw [← hgeq]
            exact hkinds
          · rw [if_neg hc] at hgeq
            rw [← hgeq]
            exact hinv g0 hg0
        · rw [if_neg hpre] at hok
          cases hok
      · rw [if_neg hne] at hok
        cases hok
        exact ⟨hf0, hinv⟩

/-- C3 witness: a cross-protocol create succeeds and preserves the
invariant; applied at a concrete one-edge store. -/
theorem follower_cross_protocol_invariant_witness :
    FollowerC.crossProtocol [] ∧
    (FollowerC.Follower.mk ⟨"MagicKey", "a.com"⟩ ⟨"ATProto", "did:plc:b"⟩
        (some "f1") "active").from_.kind ≠
      (FollowerC.Follower.mk ⟨"MagicKey", "a.com"⟩ ⟨"ATProto", "did:plc:b"⟩
        (some "f1") "active").to_.kind := by
  refine ⟨?_, ?_⟩
  · intro f hf
    cases hf
  · exact ((follower_cross_protocol_invariant []
      ⟨"MagicKey", "a.com"⟩ ⟨"ATProto", "did:plc:b"⟩ ⟨some "f1", none⟩
      (fun f hf => by cases hf)).2
      [FollowerC.Follower.mk ⟨"MagicKey", "a.com"⟩ ⟨"ATProto", "did:plc:b"⟩
        (some "f1") "active"]
      (FollowerC.Follower.mk ⟨"MagicKey", "a.com"⟩ ⟨"ATProto", "did:plc:b"⟩
        (some "f1") "active") rfl).1

namespace MergeC

/-- The fields of `models.User` touched by the existing-user merge loop of
`User.get_or_create` (lines 311-324): the monotonic `direct` flag, the
profile-object key, and the explicit opt-in set. `obj_key` stands for both
the `obj` property (whose getter loads `obj_key` and whose setter assigns
it) and the raw key field. -/
structure User where
  direct : Bool
  obj_key : Option String
  enabled_protocols : List String
deriving DecidableEq, Repr

/-- The keyword arguments `User.get_or_create` may merge into an existing
record. `obj` carries the key of a supplied profile Object (assigning the
`obj` property stores that key into `obj_key`); `enabled_protocols = []`
models the argument being omitted or empty (both falsy). -/
structure Kwargs where
  direct : Option Bool
  obj : Option String
  obj_key : Option String
  enabled_protocols : List String
deriving DecidableEq, Repr

/-- Python `set(a) | set(b)`, modelled as an append that skips elements
already present; only membership in the result is meaningful, since Python
set iteration order is arbitrary. -/
def setUnion (a b : List String) : List String :=
  a ++ b.filter (fun x => decide (x ∉ a))

/-- Translation of the merge loop of `User.get_or_create` on an existing
user: for each of `direct`, `obj`, `obj_key` in that order, set the field
when it was previously unset (`None`) and a value was supplied, or — for
`direct` only — when the stored flag is false and the supplied value
truthy; then union any supplied `enabled_protocols` into the stored set.
Returns the merged user and the `changed` flag. -/
def mergeFields (u : User) (k : Kwargs) : User × Bool :=
  let s1 : User × Bool :=
    if !u.direct && k.direct == some true then ({u with direct := true}, true)
    else (u, false)
  let s2 : User × Bool :=
    match s1.1.obj_key, k.obj with
    | none, some o => ({s1.1 with obj_key := some o}, true)
    | _, _ => (s1.1, false)
  let s3 : User × Bool :=
    match s2.1.obj_key, k.obj_key with
    | none, some o => ({s2.1 with obj_key := some o}, true)
    | _, _ => (s2.1, false)
  if k.enabled_protocols.isEmpty then (s3.1, s1.2 || s2.2 || s3.2)
  else ({s3.1 with enabled_protocols := setUnion s3.1.enabled_protocols k.enabled_protocols},
        true)

theorem mem_setUnion (a b : List String) (s : String) :
    s ∈ setUnion a b ↔ s ∈ a ∨ s ∈ b := by
  simp only [setUnion, List.mem_append, List.mem_filter, decide_eq_true_eq]
  constructor
  · rintro (h | ⟨h, _⟩)
    · exact Or.inl h
    · exact Or.inr h
  · rintro (h | h)
    · exact Or.inl h
    · by_cases ha : s ∈ a
      · exact Or.inl ha
      · exact Or.inr ⟨h, ha⟩

/-- Characterization of the merged `direct` flag. -/
theorem merge_direct_eq (u : User) (k : Kwargs) :
    (mergeFields u k).1.direct = (u.direct || k.direct == some true) := by
  obtain ⟨ud, uok, uen⟩ := u
  cases ud <;> cases hkd : k.direct == some true <;>
    simp only [mergeFields, hkd] <;>
    cases hok : uok <;> cases hko : k.obj <;> cases hkk : k.obj_key <;>
    cases hke : k.enabled_protocols.isEmpty <;> simp_all

/-- Characterization of the merged `obj_key` field. -/
theorem merge_obj_key_eq (u : User) (k : Kwargs) :
    (mergeFields u k).1.obj_key =
      (match u.obj_key with
       | some x => some x
       | none => match k.obj with
         | some o => some o
         | none => k.obj_key) := by
  obtain ⟨ud, uok, uen⟩ := u
  cases ud <;> cases hkd : k.direct == some true <;>
    simp only [mergeFields, hkd] <;>
    cases hok : uok <;> cases hko : k.obj <;> cases hkk : k.obj_key <;>
    cases hke : k.enabled_protocols.isEmpty <;> simp_all

/-- Characterization of the merged `enabled_protocols` field. -/
theorem merge_enabled_eq (u : User) (k : Kwargs) :
    (mergeFields u k).1.enabled_protocols =
      (if k.enabled_protocols.isEmpty then u.enabled_protocols
       else setUnion u.enabled_protocols k.enabled_protocols) := by
  obtain ⟨ud, uok, uen⟩ := u
  cases ud <;> cases hkd : k.direct == some true <;>
    simp only [mergeFields, hkd] <;>
    cases hok : uok <;> cases hko : k.obj <;> cases hkk : k.obj_key <;>
    cases hke : k.enabled_protocols.isEmpty <;> simp_all

end MergeC

/-- C4: the existing-user merge of `User.get_or_create` is monotone: a
stored `direct = true` survives every call (whatever `direct` the call
supplies, including false or omitted); a previously set `obj_key` is never
overwritten; a previously unset `obj_key` may be set from a supplied
profile object; and the merged `enabled_protocols` is exactly the union of
the stored and the supplied sets (so a supplied value never replaces the
stored one). -/
theorem user_merge_monotonic (u : MergeC.User) (k : MergeC.Kwargs) :
    (u.direct = true → (MergeC.mergeFields u k).1.direct = true)
    ∧ (∀ x, u.obj_key = some x → (MergeC.mergeFields u k).1.obj_key = some x)
    ∧ (∀ o, u.obj_key = none → k.obj = some o
        → (MergeC.mergeFields u k).1.obj_key = some o)
    ∧ (∀ s, s ∈ (MergeC.mergeFields u k).1.enabled_protocols
        ↔ s ∈ u.enabled_protocols ∨ s ∈ k.enabled_protocols) := by
  refine ⟨?_, ?_, ?_, ?_⟩
  · intro h
    rw [MergeC.merge_direct_eq, h, Bool.true_or]
  · intro x h
    rw [MergeC.merge_obj_key_eq, h]
  · intro o h hk
    rw [MergeC.merge_obj_key_eq, h, hk]
  · intro s
    rw [MergeC.merge_enabled_eq]
    by_cases he : k.enabled_protocols.isEmpty
    · rw [if_pos he]
      have : k.enabled_protocols = [] := by
        cases hE : k.enabled_protocols with
        | nil => rfl
        | cons a l => rw [hE] at he; simp [List.isEmpty] at he
      rw [this]
      simp
    · rw [if_neg he]
      exact MergeC.mem_setUnion _ _ s

/-- C4 witness: a user with `direct = true`, a set `obj_key`, and enabled
protocol `atproto` merged with a call supplying `direct = false` and
another protocol keeps `direct`, keeps `obj_key`, and unions the sets. -/
theorem user_merge_monotonic_witness :
    (MergeC.User.mk true (some "prof") ["atproto"]).direct = true
    ∧ (MergeC.mergeFields (MergeC.User.mk true (some "prof") ["atproto"])
        (MergeC.Kwargs.mk (some false) none none ["activitypub"])).1.direct = true
    ∧ (MergeC.mergeFields (MergeC.User.mk true (some "prof") ["atproto"])
        (MergeC.Kwargs.mk (some false) none none ["activitypub"])).1.obj_key
        = some "prof"
    ∧ ("atproto" ∈ (MergeC.mergeFields (MergeC.User.mk true (some "prof") ["atproto"])
        (MergeC.Kwargs.mk (some false) none none ["activitypub"])).1.enabled_protocols
       ∨ ("atproto" : String) ∈ (["atproto"] : List String)) := by
  have h := user_merge_monotonic (MergeC.User.mk true (some "prof") ["atproto"])
    (MergeC.Kwargs.mk (some false) none none ["activitypub"])
  exact ⟨rfl, h.1 rfl, h.2.1 "prof" rfl, Or.inr (by decide)⟩

namespace CacheC

/-- Process-local `functools.lru_cache` layer of the copy-resolution
getters: caches every returned value, including misses (`none`). The size
bound (100000) and eviction are not modelled; eviction could only remove
entries, never add stale ones. -/
def LRU := List (String × Option String)

/-- Modelled from the spec: the shared memcache layer written by
`memcache_memoize` (in `common.py`, not under src/), a read-through cache
keyed solely by the foreign copy id, mapping it to the owning entity key.
Only successful resolutions are modelled as cached here; the process-local
layer above caches everything it returns. -/
def Cache := List (String × String)

/-- Lookup in the shared cache layer. -/
def lookupC (c : Cache) (k : String) : Option String :=
  (c.find? (fun p => p.1 == k)).map (fun p => p.2)

/-- Lookup in the process-local layer (`some none` records a cached
miss). -/
def lookupL (c : LRU) (k : String) : Option (Option String) :=
  (c.find? (fun p => p.1 == k)).map (fun p => p.2)

/-- A memcache `set`, as performed by `User.add`/`Object.add` on the
`memcache_memoize` key of the copy getter. -/
def cacheSet (c : Cache) (k v : String) : Cache := (k, v) :: c

/-- Python `util.add(seq, val)`: append the value when not yet present. -/
def utilAdd {α : Type} [BEq α] (l : List α) (v : α) : List α :=
  if l.contains v then l else l ++ [v]

/-- The fields of `models.User` relevant to `User.add`. -/
structure User where
  key : String
  copies : List Target
  enabled_protocols : List String
deriving DecidableEq, Repr

/-- The fields of `models.Object` relevant to `Object.add`. -/
structure Object where
  key : String
  copies : List Target
  labels : List String
deriving DecidableEq, Repr

/-- A (property, value) pair accepted by `User.add` for its multi-valued
properties. -/
inductive UserPropVal where
  | copies (t : Target)
  | enabled_protocols (s : String)
deriving DecidableEq, Repr

/-- A (property, value) pair accepted by `Object.add`. -/
inductive ObjPropVal where
  | copies (t : Target)
  | labels (s : String)
deriving DecidableEq, Repr

/-- Translation of `User.add`: append to the multi-valued property; when
the property is `copies`, also eagerly write the shared cache entry of
`get_original_user_key` for the new Target uri, mapping it to this user
key. -/
def User.add (u : User) (v : UserPropVal) (mem : Cache) : User × Cache :=
  match v with
  | .copies t => ({u with copies := utilAdd u.copies t}, cacheSet mem t.uri u.key)
  | .enabled_protocols s =>
      ({u with enabled_protocols := utilAdd u.enabled_protocols s}, mem)

/-- Translation of `Object.add`, with the same eager cache write for
`copies` against `get_original_object_key`. -/
def Object.add (o : Object) (v : ObjPropVal) (mem : Cache) : Object × Cache :=
  match v with
  | .copies t => ({o with copies := utilAdd o.copies t}, cacheSet mem t.uri o.key)
  | .labels s => ({o with labels := utilAdd o.labels s}, mem)

/-- The layered copy-resolution getter (`get_original_user_key` and
`get_original_object_key` share this shape; each has its own pair of
caches): consult the process-local lru layer, then the shared memcache
layer, and only then run the backing datastore query, caching what was
returned. -/
def getOriginalKey (lru : LRU) (mem : Cache) (query : String → Option String)
    (uri : String) : Option String × LRU × Cache :=
  match lookupL lru uri with
  | some r => (r, lru, mem)
  | none =>
    match lookupC mem uri with
    | some k => (some k, (uri, some k) :: lru, mem)
    | none =>
      let r := query uri
      (r, (uri, r) :: lru,
       match r with
       | some k => cacheSet mem uri k
       | none => mem)

/-- A user about to gain a bridged copy. -/
def demoUser : User :=
  { key := "web:alice.com", copies := [], enabled_protocols := [] }

/-- The copy Target added in the C5 counterexample. -/
def demoTarget : Target := { uri := "at://did:plc:x", protocol := "atproto" }

/-- The process-local cache state after resolving the copy id once before
the copy existed (a miss cached by `lru_cache`). -/
def staleLru : LRU :=
  (getOriginalKey [] [] (fun _ => none) demoTarget.uri).2.1

end CacheC

/-- C5 counterexample: resolving a copy id before the copy exists caches
the miss in the process-local `lru_cache` layer; `User.add` then eagerly
populates only the shared memcache layer, so a resolution of the same uri
immediately after the add still returns the stale `none` from the
process-local layer instead of the owning entity key — refuting
read-after-write consistency as claimed. -/
theorem copies_cache_read_after_write_counterexample :
    (CacheC.getOriginalKey [] [] (fun _ => none) CacheC.demoTarget.uri).1 = none
    ∧ CacheC.lookupC
        (CacheC.User.add CacheC.demoUser (.copies CacheC.demoTarget) []).2
        CacheC.demoTarget.uri = some CacheC.demoUser.key
    ∧ (CacheC.getOriginalKey CacheC.staleLru
        (CacheC.User.add CacheC.demoUser (.copies CacheC.demoTarget) []).2
        (fun _ => none) CacheC.demoTarget.uri).1 = none
    ∧ (none : Option String) ≠ some CacheC.demoUser.key := by
  refine ⟨rfl, rfl, rfl, by decide⟩

/-- C5 (amended): `User.add`/`Object.add` on `copies` eagerly populate the
shared cache entry for the new Target uri with the owning entity key, so a
resolution of that uri immediately after the add returns that key without
consulting the backing store (the result holds for every backing query
function) — provided the process-local lru layer holds no stale entry for
that uri. -/
theorem copies_cache_read_after_write (u : CacheC.User) (o : CacheC.Object)
    (t : Target) (lru : CacheC.LRU) (mem : CacheC.Cache)
    (hl : CacheC.lookupL lru t.uri = none) :
    (∀ query, (CacheC.getOriginalKey lru
        (CacheC.User.add u (.copies t) mem).2 query t.uri).1 = some u.key)
    ∧ (∀ query, (CacheC.getOriginalKey lru
        (CacheC.Object.add o (.copies t) mem).2 query t.uri).1 = some o.key) := by
  have hmem : ∀ v, CacheC.lookupC (CacheC.cacheSet mem t.uri v) t.uri = some v := by
    intro v
    simp [CacheC.lookupC, CacheC.cacheSet, List.find?]
  constructor
  · intro query
    unfold CacheC.getOriginalKey
    rw [hl]
    have : (CacheC.User.add u (.copies t) mem).2 = CacheC.cacheSet mem t.uri u.key := rfl
    rw [this, hmem u.key]
  · intro query
    unfold CacheC.getOriginalKey
    rw [hl]
    have : (CacheC.Object.add o (.copies t) mem).2 = CacheC.cacheSet mem t.uri o.key := rfl
    rw [this, hmem o.key]

/-- C5 witness: the amended theorem at a fresh process-local cache. -/
theorem copies_cache_read_after_write_witness :
    CacheC.lookupL [] "at://did:plc:y" = none
    ∧ (CacheC.getOriginalKey []
        (CacheC.User.add CacheC.demoUser
          (.copies ⟨"at://did:plc:y", "atproto"⟩) []).2
        (fun _ => none) "at://did:plc:y").1 = some CacheC.demoUser.key := by
  refine ⟨rfl, ?_⟩
  exact (copies_cache_read_after_write CacheC.demoUser
    ⟨"obj:1", [], []⟩ ⟨"at://did:plc:y", "atproto"⟩ [] [] rfl).1 (fun _ => none)

namespace PagingC

/-- The fixed page size of `models.fetch_page`. -/
def PAGE_SIZE : Nat := 20

/-- An entity paged by `fetch_page`: `created` and `updated` are the two
timestamp properties a caller may page by (`Object.created`,
`Object.updated`, `Follower.updated`); `name` carries the identity. -/
structure Entity where
  name : String
  created : Nat
  updated : Nat
deriving DecidableEq, Repr

/-- A datastore query ordered ascending by a property. -/
def sortAsc (key : Entity → Nat) (l : List Entity) : List Entity :=
  l.insertionSort (fun a b => key a ≤ key b)

/-- A datastore query ordered descending by a property. -/
def sortDesc (key : Entity → Nat) (l : List Entity) : List Entity :=
  l.insertionSort (fun a b => key b ≤ key a)

/-- The filtered, ordered entity sequence produced by the query that
`fetch_page` builds from the optional `before`/`after` cursors: `after`
filters `by >= after` and orders ascending; `before` filters `by < before`
and orders descending; neither orders descending. -/
def queryResults (store : List Entity) (key : Entity → Nat)
    (before after : Option Nat) : List Entity :=
  match after with
  | some a => sortAsc key (store.filter (fun e => decide (a ≤ key e)))
  | none =>
    match before with
    | some b => sortDesc key (store.filter (fun e => decide (key e < b)))
    | none => sortDesc key store

/-- The returned page: the first `PAGE_SIZE` entities of the query,
re-sorted by the `updated` property descending (the source sorts by
`r.updated` regardless of the paging property). -/
def resultsOf (q : List Entity) : List Entity :=
  sortDesc (fun e => e.updated) (q.take PAGE_SIZE)

/-- Translation of `models.fetch_page`: cursors are already-parsed
timestamps (the source parses them from ISO8601 request parameters,
erroring on unparsable values); supplying both is a request error. The
`probably_has_next` iterator probe is modelled exactly as "the query has
more results beyond the page". Returns (results, new_before, new_after). -/
def fetch_page (store : List Entity) (key : Entity → Nat)
    (before after : Option Nat) :
    Except Unit (List Entity × Option Nat × Option Nat) :=
  match before, after with
  | some _, some _ => .error ()
  | _, _ =>
    let q := queryResults store key before after
    let results := resultsOf q
    let hasNext := !results.isEmpty && decide (PAGE_SIZE < q.length)
    let new_after : Option Nat :=
      match before with
      | some b => some b
      | none =>
        if hasNext && after.isSome then results.head?.map (fun e => e.updated)
        else none
    let new_before : Option Nat :=
      match after with
      | some a => some a
      | none => if hasNext then results.getLast?.map (fun e => e.updated) else none
    .ok (results, new_before, new_after)

/-- Size, membership and order facts of the returned page, relative to the
query sequence it was cut from. -/
theorem resultsOf_facts (q : List Entity) :
    (resultsOf q).length ≤ PAGE_SIZE
    ∧ (∀ e ∈ resultsOf q, e ∈ q)
    ∧ (resultsOf q).Sorted (fun x y => y.updated ≤ x.updated) := by
  haveI : IsTotal Entity (fun x y => y.updated ≤ x.updated) :=
    ⟨fun a b => (Nat.le_total b.updated a.updated)⟩
  haveI : IsTrans Entity (fun x y => y.updated ≤ x.updated) :=
    ⟨fun a b c hab hbc => Nat.le_trans hbc hab⟩
  refine ⟨?_, ?_, ?_⟩
  · rw [resultsOf, sortDesc, List.length_insertionSort, List.length_take]
    exact Nat.min_le_left _ _
  · intro e he
    rw [resultsOf, sortDesc, List.mem_insertionSort] at he
    exact List.mem_of_mem_take he
  · exact List.sorted_insertionSort _ _

/-- Elements of the page have smaller sort rank than query elements left
out of the page, whenever the query sequence was sorted. -/
theorem resultsOf_minimal {r : Entity → Entity → Prop} (q : List Entity)
    (hq : q.Sorted r) (x : Entity) (hx : x ∈ resultsOf q) (e : Entity)
    (he : e ∈ q) (hne : e ∉ resultsOf q) : r x e := by
  have hmem : ∀ z, z ∈ resultsOf q ↔ z ∈ q.take PAGE_SIZE := by
    intro z
    rw [resultsOf, sortDesc, List.mem_insertionSort]
  have hx2 : x ∈ q.take PAGE_SIZE := (hmem x).1 hx
  have hne2 : e ∉ q.take PAGE_SIZE := fun h => hne ((hmem e).2 h)
  have hsplit : q = q.take PAGE_SIZE ++ q.drop PAGE_SIZE :=
    (List.take_append_drop _ _).symm
  have he2 : e ∈ q.take PAGE_SIZE ++ q.drop PAGE_SIZE := by
    rw [← hsplit]; exact he
  have hdrop : e ∈ q.drop PAGE_SIZE := by
    rcases List.mem_append.1 he2 with h | h
    · exact absurd h hne2
    · exact h
  exact hq.rel_of_mem_take_of_mem_drop hx2 hdrop

end PagingC

/-- Store of the C8 counterexample: two entities whose `created` order is
the reverse of their `updated` order. -/
def pageDemoStore : List PagingC.Entity :=
  [⟨"e1", 1, 10⟩, ⟨"e2", 2, 5⟩]

/-- C8 counterexample: paging `pageDemoStore` by `created` with no cursor
returns the page re-sorted by `updated` descending, which is *not* sorted
by the ordering property (`created`) descending — refuting the claim that
the page is re-sorted by the ordering property. -/
theorem fetch_page_resort_counterexample :
    PagingC.fetch_page pageDemoStore (fun e => e.created) none none
      = .ok ([⟨"e1", 1, 10⟩, ⟨"e2", 2, 5⟩], none, none)
    ∧ ¬ (List.map (fun e => e.created)
          ([⟨"e1", 1, 10⟩, ⟨"e2", 2, 5⟩] : List PagingC.Entity)).Sorted (· ≥ ·) := by
  refine ⟨rfl, by decide⟩

/-- C8 (amended): supplying both cursors is a request error; `after`
selects, among entities with paging property `>= after`, those with the
smallest paging property (the query runs ascending); `before` selects,
among entities with paging property `< before`, those with the largest
(descending); no cursor selects the overall largest (most recent first);
at most `PAGE_SIZE` (20) entities are returned; and the returned page is
re-sorted descending by the `updated` property (which is the ordering
property whenever the caller pages by `updated`). -/
theorem fetch_page_amended (store : List PagingC.Entity)
    (key : PagingC.Entity → Nat) :
    (∀ b a, PagingC.fetch_page store key (some b) (some a) = .error ())
    ∧ (∀ a results nb na,
        PagingC.fetch_page store key none (some a) = .ok (results, nb, na) →
        results.length ≤ PagingC.PAGE_SIZE
        ∧ (∀ e ∈ results, e ∈ store ∧ a ≤ key e)
        ∧ results.Sorted (fun x y => y.updated ≤ x.updated)
        ∧ (∀ x ∈ results, ∀ e ∈ store, a ≤ key e → e ∉ results → key x ≤ key e))
    ∧ (∀ b results nb na,
        PagingC.fetch_page store key (some b) none = .ok (results, nb, na) →
        results.length ≤ PagingC.PAGE_SIZE
        ∧ (∀ e ∈ results, e ∈ store ∧ key e < b)
        ∧ results.Sorted (fun x y => y.updated ≤ x.updated)
        ∧ (∀ x ∈ results, ∀ e ∈ store, key e < b → e ∉ results → key e ≤ key x))
    ∧ (∀ results nb na,
        PagingC.fetch_page store key none none = .ok (results, nb, na) →
        results.length ≤ PagingC.PAGE_SIZE
        ∧ (∀ e ∈ results, e ∈ store)
        ∧ results.Sorted (fun x y => y.updated ≤ x.updated)
        ∧ (∀ x ∈ results, ∀ e ∈ store, e ∉ results → key e ≤ key x)) := by
  haveI hta : IsTotal PagingC.Entity (fun x y => key x ≤ key y) :=
    ⟨fun a b => Nat.le_total (key a) (key b)⟩
  haveI htra : IsTrans PagingC.Entity (fun x y => key x ≤ key y) :=
    ⟨fun a b c hab hbc => Nat.le_trans hab hbc⟩
  haveI htd : IsTotal PagingC.Entity (fun x y => key y ≤ key x) :=
    ⟨fun a b => Nat.le_total (key b) (key a)⟩
  haveI htrd : IsTrans PagingC.Entity (fun x y => key y ≤ key x) :=
    ⟨fun a b c hab hbc => Nat.le_trans hbc hab⟩
  refine ⟨?_, ?_, ?_, ?_⟩
  · intro b a
    rfl
  · intro a results nb na hok
    have hres : results = PagingC.resultsOf
        (PagingC.queryResults store key none (some a)) := by
      have := congrArg (fun x => match x with
        | Except.ok (r, _, _) => r
        | Except.error _ => []) hok
      simpa [PagingC.fetch_page] using this.symm
    subst hres
    set q := PagingC.queryResults store key none (some a) with hq
    have hfacts := PagingC.resultsOf_facts q
    have hqmem : ∀ e, e ∈ q ↔ (e ∈ store ∧ a ≤ key e) := by
      intro e
      rw [hq, PagingC.queryResults]
      simp [PagingC.sortAsc, List.mem_insertionSort, List.mem_filter]
    have hqsorted : q.Sorted (fun x y => key x ≤ key y) := by
      rw [hq, PagingC.queryResults]
      exact List.sorted_insertionSort _ _
    refine ⟨hfacts.1, ?_, hfacts.2.2, ?_⟩
    · intro e he
      exact (hqmem e).1 (hfacts.2.1 e he)
    · intro x hx e he hae hne
      exact PagingC.resultsOf_minimal q hqsorted x hx e ((hqmem e).2 ⟨he, hae⟩) hne
  · intro b results nb na hok
    have hres : results = PagingC.resultsOf
        (PagingC.queryResults store key (some b) none) := by
      have := congrArg (fun x => match x with
        | Except.ok (r, _, _) => r
        | Except.error _ => []) hok
      simpa [PagingC.fetch_page] using this.symm
    subst hres
    set q := PagingC.queryResults store key (some b) none with hq
    have hfacts := PagingC.resultsOf_facts q
    have hqmem : ∀ e, e ∈ q ↔ (e ∈ store ∧ key e < b) := by
      intro e
      rw [hq, PagingC.queryResults]
      simp [PagingC.sortDesc, List.mem_insertionSort, List.mem_filter]
    have hqsorted : q.Sorted (fun x y => key y ≤ key x) := by
      rw [hq, PagingC.queryResults]
      exact List.sorted_insertionSort _ _
    refine ⟨hfacts.1, ?_, hfacts.2.2, ?_⟩
    · intro e he
      exact (hqmem e).1 (hfacts.2.1 e he)
    · intro x hx e he hae hne
      exact PagingC.resultsOf_minimal q hqsorted x hx e ((hqmem e).2 ⟨he, hae⟩) hne
  · intro results nb na hok
    have hres : results = PagingC.resultsOf
        (PagingC.queryResults store key none none) := by
      have := congrArg (fun x => match x with
        | Except.ok (r, _, _) => r
        | Except.error _ => []) hok
      simpa [PagingC.fetch_page] using this.symm
    subst hres
    set q := PagingC.queryResults store key none none with hq
    have hfacts := PagingC.resultsOf_facts q
    have hqmem : ∀ e, e ∈ q ↔ e ∈ store := by
      intro e
      rw [hq, PagingC.queryResults]
      simp [PagingC.sortDesc, List.mem_insertionSort]
    have hqsorted : q.Sorted (fun x y => key y ≤ key x) := by
      rw [hq, PagingC.queryResults]
      exact List.sorted_insertionSort _ _
    refine ⟨hfacts.1, ?_, hfacts.2.2, ?_⟩
    · intro e he
      exact (hqmem e).1 (hfacts.2.1 e he)
    · intro x hx e he hne
      exact PagingC.resultsOf_minimal q hqsorted x hx e ((hqmem e).2 he) hne

/-- C8 witness: the amended theorem at a one-entity store, discharging the
ok-result hypothesis of the `after` branch and the error of the
both-cursors branch. -/
theorem fetch_page_amended_witness :
    PagingC.fetch_page [⟨"x", 0, 7⟩] (fun e => e.updated) (some 5) (some 2)
      = .error ()
    ∧ (PagingC.fetch_page [⟨"x", 0, 7⟩] (fun e => e.updated) none (some 2)
        = .ok ([⟨"x", 0, 7⟩], some 2, none)
       ∧ (∀ e ∈ ([⟨"x", 0, 7⟩] : List PagingC.Entity),
          e ∈ ([⟨"x", 0, 7⟩] : List PagingC.Entity) ∧ 2 ≤ e.updated)) := by
  refine ⟨(fetch_page_amended [⟨"x", 0, 7⟩] (fun e => e.updated)).1 5 2, rfl, ?_⟩
  exact ((fetch_page_amended [⟨"x", 0, 7⟩] (fun e => e.updated)).2.1
    2 [⟨"x", 0, 7⟩] (some 2) none rfl).2.1

/-- Store of the C9 counterexample: three entities with `updated`
timestamps 1, 5, 10. -/
def cursorDemoStore : List PagingC.Entity :=
  [⟨"A", 0, 1⟩, ⟨"B", 0, 5⟩, ⟨"C", 0, 10⟩]

/-- C9 counterexample: paging by `updated` with `after = 3` returns the
page [C, B] whose oldest item has timestamp 5, while an older entity
(A, timestamp 1) still exists — yet the returned `before` cursor is 3 (the
supplied `after` value), not 5 (the oldest returned timestamp), refuting
the claim. -/
theorem fetch_page_new_before_counterexample :
    PagingC.fetch_page cursorDemoStore (fun e => e.updated) none (some 3)
      = .ok ([⟨"C", 0, 10⟩, ⟨"B", 0, 5⟩], some 3, none)
    ∧ (([⟨"C", 0, 10⟩, ⟨"B", 0, 5⟩] : List PagingC.Entity).getLast?.map
        (fun e => e.updated) = some 5)
    ∧ (some 3 : Option Nat) ≠ some 5
    ∧ (⟨"A", 0, 1⟩ : PagingC.Entity) ∈ cursorDemoStore ∧ (1 : Nat) < 3 := by
  refine ⟨rfl, rfl, by decide, by decide, by decide⟩

/-- C9 (amended): when an `after` cursor is supplied, the returned
`before` cursor is the supplied `after` value itself (so paging back
re-fetches from the same bound); the oldest-returned-item rule instead
governs the no-cursor case: with no cursors and more than a page of
entities, the returned `before` cursor equals the `updated` timestamp of
the oldest item in the page. -/
theorem fetch_page_new_before (store : List PagingC.Entity)
    (key : PagingC.Entity → Nat) :
    (∀ a results nb na,
       PagingC.fetch_page store key none (some a) = .ok (results, nb, na)
       → nb = some a)
    ∧ (∀ results nb na, PagingC.PAGE_SIZE < store.length →
       PagingC.fetch_page store key none none = .ok (results, nb, na)
       → nb = results.getLast?.map (fun e => e.updated)) := by
  constructor
  · intro a results nb na hok
    have := congrArg (fun x => match x with
      | Except.ok (_, nb2, _) => nb2
      | Except.error _ => none) hok
    simpa [PagingC.fetch_page] using this.symm
  · intro results nb na hlen hok
    have hq : (PagingC.queryResults store key none none).length = store.length := by
      rw [PagingC.queryResults, PagingC.sortDesc, List.length_insertionSort]
    have hlen2 : (PagingC.resultsOf (PagingC.queryResults store key none none)).length
        = PagingC.PAGE_SIZE := by
      rw [PagingC.resultsOf, PagingC.sortDesc, List.length_insertionSort,
        List.length_take, hq]
      exact Nat.min_eq_left (Nat.le_of_lt hlen)
    have hne : (PagingC.resultsOf
        (PagingC.queryResults store key none none)).isEmpty = false := by
      cases hE : PagingC.resultsOf (PagingC.queryResults store key none none) with
      | nil => rw [hE] at hlen2; simp [PagingC.PAGE_SIZE] at hlen2
      | cons h t => simp [List.isEmpty]
    have hnext : PagingC.PAGE_SIZE < (PagingC.queryResults store key none none).length := by
      rw [hq]; exact hlen
    have := congrArg (fun x => match x with
      | Except.ok (r, nb2, _) => (r, nb2)
      | Except.error _ => ([], none)) hok
    simp only [PagingC.fetch_page, hne, hnext] at this
    injection this with hra hrb
    rw [← hrb, ← hra]
    simp

/-- C9 witness: the amended theorem applied at a concrete after-cursor
request. -/
theorem fetch_page_new_before_witness :
    PagingC.fetch_page cursorDemoStore (fun e => e.updated) none (some 3)
      = .ok ([⟨"C", 0, 10⟩, ⟨"B", 0, 5⟩], some 3, none)
    ∧ (some 3 : Option Nat) = some 3 := by
  refine ⟨rfl, ?_⟩
  exact ((fetch_page_new_before cursorDemoStore (fun e => e.updated)).1
    3 [⟨"C", 0, 10⟩, ⟨"B", 0, 5⟩] (some 3) none rfl).symm ▸ rfl

namespace ObjC

/-- The parts of an AS1 activity consulted by the `Object.get_or_create`
authorization check: the id lists of its `author` and `actor` fields
(`as1.get_ids`). Supplied AS1 dicts are non-empty (an object with a key
always carries at least its id), so an `Option AS1C` value models Python
truthiness of the canonical form directly. -/
structure AS1C where
  authors : List String
  actors : List String
deriving DecidableEq, Repr

/-- The fields of `models.Object` driving `get_or_create`: the five
content-variant fields (wire payloads are opaque strings) plus
`source_protocol`. The `atom`/`rss` audit feeds, labels and delivery
bookkeeping are not consulted by the modelled paths. -/
structure Object where
  id : String
  source_protocol : Option String
  our_as1 : Option AS1C
  as2 : Option String
  bsky : Option String
  mf2 : Option String
  raw : Option String
deriving DecidableEq, Repr

/-- External wire-format conversions used by the `as1` derivation
(granary's `as2.to_as1`, `bluesky.to_as1`, `microformats2.json_to_object`)
and the `as1.activity_changed` comparison, as abstract functions; the
Bluesky conversion may fail (the source catches the failure and yields no
canonical form). -/
structure ConvCtx where
  as2_to_as1 : String → AS1C
  bsky_to_as1 : String → Option AS1C
  mf2_to_as1 : String → AS1C
  activity_changed_core : AS1C → AS1C → Bool

/-- Modelled from the spec: the `ids` module (not under src/), exposing the
protocol registry lookup success, `ids.normalize_user_id` and
`ids.profile_id` (per-protocol id translation entry points, applied to an
id given the owning protocol label), and the protocol `owns_id` tri-state
predicate. -/
structure IdsCtx where
  isKnownProto : String → Bool
  normalize_user_id : String → String → String
  profile_id : String → String → String
  owns_id : String → String → Option Bool

/-- Translation of the `Object.as1` derivation priority: `our_as1`, then
`as2`, then `bsky` (conversion may fail), then `mf2`, else no canonical
form. (`raw` is never consulted.) -/
def Object.as1 (cv : ConvCtx) (o : Object) : Option AS1C :=
  match o.our_as1 with
  | some c => some c
  | none =>
    match o.as2 with
    | some w => some (cv.as2_to_as1 w)
    | none =>
      match o.bsky with
      | some w => cv.bsky_to_as1 w
      | none =>
        match o.mf2 with
        | some w => some (cv.mf2_to_as1 w)
        | none => none

/-- The settable property values a `get_or_create` call may supply
(`none` = key absent from `props`; `some ""` = key present with a falsy
value, which triggers the whole-content check but is not populated). -/
structure Props where
  our_as1 : Option AS1C
  as2 : Option String
  bsky : Option String
  mf2 : Option String
  raw : Option String
  source_protocol : Option String
deriving DecidableEq, Repr

/-- The whole-content test `set(props.keys()) & set(('as2', 'bsky', 'mf2',
'raw'))`: true when any of the four native-format keys is present in the
call, truthy or not. -/
def Props.suppliesWhole (p : Props) : Bool :=
  p.as2.isSome || p.bsky.isSome || p.mf2.isSome || p.raw.isSome

/-- Populate one string-valued field: only truthy (non-empty) supplied
values overwrite. -/
def setIfTruthy (cur : Option String) (v : Option String) : Option String :=
  match v with
  | some s => if s = "" then cur else some s
  | none => cur

/-- Translation of the filtered `obj.populate(**props)` call: only
non-falsy supplied values are written (computed properties are not
representable in `Props`). -/
def Object.populate (o : Object) (p : Props) : Object :=
  { o with
    our_as1 := match p.our_as1 with | some c => some c | none => o.our_as1
    as2 := setIfTruthy o.as2 p.as2
    bsky := setIfTruthy o.bsky p.bsky
    mf2 := setIfTruthy o.mf2 p.mf2
    raw := setIfTruthy o.raw p.raw
    source_protocol := setIfTruthy o.source_protocol p.source_protocol }

/-- Translation of `Object.clear`: wipes only the synthesized `our_as1`
content. -/
def Object.clear (o : Object) : Object := { o with our_as1 := none }

/-- The error taxonomy of `Object.get_or_create`: Python `assert` failures
(missing authed actor, unknown protocol, failed ownership assert), the
HTTP-403 authorization rejection raised via `error(..., status=403)`, and
the `ValueError` for non-DID `at://` ids. The three are distinct
exceptions at the boundary. -/
inductive GocErr where
  | assertionFailed
  | forbidden
  | valueError
deriving DecidableEq, Repr

/-- Translation of `Object._pre_put_hook` validation: a declared
non-sentinel source protocol must exist in the registry and must not
disclaim ownership of the id; `at://` ids must have DID repos (the repo
of `at://X` starts with `did:` exactly when the text after `at://` does,
since `did:` contains no slash). The `activity` label bookkeeping and the
`@context` stripping mutate fields outside this model. -/
def Object.prePut (ictx : IdsCtx) (o : Object) : Option GocErr :=
  let protoErr : Option GocErr :=
    match o.source_protocol with
    | none => none
    | some l =>
      if l = "ui" then none
      else if !ictx.isKnownProto l then some GocErr.assertionFailed
      else if ictx.owns_id l o.id == some false then some GocErr.assertionFailed
      else none
  match protoErr with
  | some e => some e
  | none =>
    if o.id.startsWith "at://" && !((o.id.drop 5).startsWith "did:") then
      some GocErr.valueError
    else none

/-- The outcome of a successful `get_or_create`: the committed object, the
advisory `new`/`changed` flags, and the store after the transactional
write. -/
structure GocRes where
  obj : Object
  isNew : Bool
  changed : Option Bool
  store : List Object
deriving DecidableEq, Repr

/-- The `changed` computation: `as1.activity_changed(self.as1, other,
inReplyTo=False)` when both forms exist, else whether exactly one
exists. -/
def activityChanged (cv : ConvCtx) (a b : Option AS1C) : Bool :=
  match a, b with
  | some x, some y => cv.activity_changed_core x y
  | _, _ => a.isSome != b.isSome

/-- A datastore `put`: overwrite the entity with this key, or append. -/
def storePut (store : List Object) (o : Object) : List Object :=
  if (store.find? (fun g => g.id == o.id)).isSome then
    store.map (fun g => if g.id == o.id then o else g)
  else store ++ [o]

/-- The owner list of the authorization check: the normalized ids of the
prior content author and actor fields plus the target id itself, all
normalized with the object protocol. -/
def ownersOf (ictx : IdsCtx) (l : String) (orig : AS1C) (id : String) :
    List String :=
  ((orig.authors ++ orig.actors) ++ [id]).map (ictx.normalize_user_id l)

/-- The authorization block of `Object.get_or_create` for an existing
object: no check when the prior canonical form is empty; otherwise the
authed actor id is asserted present, the object protocol is asserted
registered, and the normalized authed id or its profile id must be among
the normalized owners, else the 403 authorization error. -/
def authCheck (ictx : IdsCtx) (cv : ConvCtx) (obj : Object)
    (authed_as : Option String) (id : String) : Except GocErr Unit :=
  match obj.as1 cv with
  | none => .ok ()
  | some orig =>
    match authed_as with
    | none => .error .assertionFailed
    | some auth =>
      match obj.source_protocol with
      | none => .error .assertionFailed
      | some l =>
        if !ictx.isKnownProto l then .error .assertionFailed
        else if ictx.normalize_user_id l auth ∈ ownersOf ictx l orig id
            ∨ ictx.profile_id l auth ∈ ownersOf ictx l orig id then .ok ()
        else .error .forbidden

/-- Translation of `Object.get_or_create`: for an existing object with a
canonical prior form, an authed actor id is asserted and checked against
the normalized owners (403 on mismatch); then any supplied whole-content
key wipes `our_as1`, truthy props are populated, `changed`/`new` are
derived, and the object is committed through `_pre_put_hook`. Any raised
error aborts the surrounding transaction. -/
def get_or_create (ictx : IdsCtx) (cv : ConvCtx) (store : List Object)
    (id : String) (authed_as : Option String) (props : Props) :
    Except GocErr GocRes :=
  match store.find? (fun g => g.id == id) with
  | some obj =>
    let origAs1 := obj.as1 cv
    match authCheck ictx cv obj authed_as id with
    | .error e => .error e
    | .ok _ =>
      let obj1 := if props.suppliesWhole then obj.clear else obj
      let obj2 := obj1.populate props
      match obj2.prePut ictx with
      | some e => .error e
      | none =>
        .ok { obj := obj2, isNew := false,
              changed := some (activityChanged cv (obj2.as1 cv) origAs1),
              store := storePut store obj2 }
  | none =>
    let obj : Object :=
      { id := id, source_protocol := none, our_as1 := none,
        as2 := none, bsky := none, mf2 := none, raw := none }
    let obj1 := if props.suppliesWhole then obj.clear else obj
    let obj2 := obj1.populate props
    match obj2.prePut ictx with
    | some e => .error e
    | none =>
      .ok { obj := obj2, isNew := true, changed := none,
            store := storePut store obj2 }

/-- The store after a `get_or_create` call: a raised error aborts the
enclosing `@ndb.transactional` transaction, so the datastore is unchanged
on any rejection. -/
def get_or_create_store (ictx : IdsCtx) (cv : ConvCtx) (store : List Object)
    (id : String) (authed_as : Option String) (props : Props) : List Object :=
  match get_or_create ictx cv store id authed_as props with
  | .ok r => r.store
  | .error _ => store

/-- Number of simultaneously populated content-variant fields. -/
def variantCount (o : Object) : Nat :=
  (if o.our_as1.isSome then 1 else 0) + (if o.as2.isSome then 1 else 0)
  + (if o.bsky.isSome then 1 else 0) + (if o.mf2.isSome then 1 else 0)
  + (if o.raw.isSome then 1 else 0)

/-- A one-protocol registry and identity-like id translation for the
concrete runs. -/
def demoIds : IdsCtx :=
  { isKnownProto := fun l => l == "fake"
    normalize_user_id := fun _ s => s
    profile_id := fun _ s => s ++ "/profile"
    owns_id := fun _ _ => none }

/-- Concrete conversions: the stored AS2 payload converts to an activity
authored by alice. -/
def demoConv : ConvCtx :=
  { as2_to_as1 := fun _ => ⟨["alice"], []⟩
    bsky_to_as1 := fun _ => none
    mf2_to_as1 := fun _ => ⟨[], []⟩
    activity_changed_core := fun a b => decide (a ≠ b) }

/-- A stored object holding AS2 content authored by alice. -/
def demoStored : Object :=
  { id := "x", source_protocol := some "fake", our_as1 := none,
    as2 := some "W1", bsky := none, mf2 := none, raw := none }

/-- A call that switches the object to Bluesky-format content. -/
def demoSwitchProps : Props :=
  { our_as1 := none, as2 := none, bsky := some "W2", mf2 := none,
    raw := none, source_protocol := none }

end ObjC

/-- C6 counterexample: an authorized `get_or_create` that supplies `bsky`
content for an object currently holding `as2` content succeeds and leaves
*both* native variants populated (the whole-content wipe clears only the
synthesized `our_as1`), refuting the claim that exactly one content
variant is populated at a time. -/
theorem object_variant_exclusivity_counterexample :
    ((ObjC.get_or_create ObjC.demoIds ObjC.demoConv [ObjC.demoStored] "x"
        (some "alice") ObjC.demoSwitchProps).map
      (fun r => (r.obj.as2, r.obj.bsky, ObjC.variantCount r.obj)))
      = .ok (some "W1", some "W2", 2)
    ∧ (2 : Nat) ≠ 1 := by
  refine ⟨rfl, by decide⟩

/-- C6 (amended): every `get_or_create` call that supplies any
whole-content field (`as2`, `bsky`, `mf2` or `raw`) wipes the previously
synthesized `our_as1` before applying the new fields — the committed
object carries exactly the call-supplied `our_as1` (none when not
supplied), never the stale synthesized content. Native-format variants
are, however, not mutually exclusive: several can be stored at once (the
canonical-form derivation consults them in the fixed priority `our_as1`,
`as2`, `bsky`, `mf2`). -/
theorem object_whole_content_wipes_synthesized (ictx : ObjC.IdsCtx)
    (cv : ObjC.ConvCtx) (store : List ObjC.Object) (id : String)
    (authed : Option String) (props : ObjC.Props) (res : ObjC.GocRes)
    (hw : props.suppliesWhole = true)
    (hok : ObjC.get_or_create ictx cv store id authed props = .ok res) :
    res.obj.our_as1 = props.our_as1 := by
  unfold ObjC.get_or_create at hok
  have hclear : ∀ o : ObjC.Object,
      ((if props.suppliesWhole then o.clear else o).populate props).our_as1
        = props.our_as1 := by
    intro o
    rw [hw, if_pos rfl]
    cases hpo : props.our_as1 <;>
      simp [ObjC.Object.populate, ObjC.Object.clear, hpo]
  cases hfound : store.find? (fun g => g.id == id) with
  | some obj =>
    rw [hfound] at hok
    dsimp only at hok
    cases hauth : ObjC.authCheck ictx cv obj authed id with
    | error e =>
      rw [hauth] at hok
      cases hok
    | ok u =>
      rw [hauth] at hok
      dsimp only at hok
      cases hpre : (((if props.suppliesWhole then obj.clear else obj).populate
          props).prePut ictx) with
      | some e =>
        rw [hpre] at hok
        cases hok
      | none =>
        rw [hpre] at hok
        cases hok
        exact hclear obj
  | none =>
    rw [hfound] at hok
    dsimp only at hok
    cases hpre : (((if props.suppliesWhole
        then (ObjC.Object.mk id none none none none none none).clear
        else ObjC.Object.mk id none none none none none none).populate
          props).prePut ictx) with
    | some e =>
      rw [hpre] at hok
      cases hok
    | none =>
      rw [hpre] at hok
      cases hok
      exact hclear _

/-- C6 witness: the amended theorem at the concrete format-switch run. -/
theorem object_whole_content_wipes_synthesized_witness :
    ObjC.demoSwitchProps.suppliesWhole = true
    ∧ (∀ res : ObjC.GocRes,
        ObjC.get_or_create ObjC.demoIds ObjC.demoConv [ObjC.demoStored] "x"
          (some "alice") ObjC.demoSwitchProps = .ok res
        → res.obj.our_as1 = none) := by
  refine ⟨rfl, ?_⟩
  intro res hok
  exact object_whole_content_wipes_synthesized ObjC.demoIds ObjC.demoConv
    [ObjC.demoStored] "x" (some "alice") ObjC.demoSwitchProps res rfl hok

/-- C2: for an existing object whose prior canonical form is non-empty, a
`get_or_create` without an authed actor id is rejected (a failed
assertion); with an authed actor whose normalized id and profile id are
both outside the normalized owner set (prior content authors and actors
plus the target id), the call is rejected with the 403 authorization
error, which is distinct from the assertion and validation errors; an
authed actor inside the owner set is never rejected with the
authorization error; and every rejection leaves the store unmodified. -/
theorem prePut_never_forbidden (ictx : ObjC.IdsCtx) (o : ObjC.Object)
    (e : ObjC.GocErr) (h : o.prePut ictx = some e) :
    e ≠ ObjC.GocErr.forbidden := by
  unfold ObjC.Object.prePut at h
  intro hc
  subst hc
  revert h
  cases hsp : o.source_protocol with
  | none =>
    dsimp only
    split
    · intro h
      cases h
    · intro h
      cases h
  | some l =>
    dsimp only
    by_cases h1 : l = "ui"
    · rw [if_pos h1]
      dsimp only
      split
      · intro h
        cases h
      · intro h
        cases h
    · rw [if_neg h1]
      by_cases h2 : (!ictx.isKnownProto l) = true
      · rw [if_pos h2]
        intro h
        cases h
      · rw [if_neg h2]
        by_cases h3 : (ictx.owns_id l o.id == some false) = true
        · rw [if_pos h3]
          intro h
          cases h
        · rw [if_neg h3]
          dsimp only
          split
          · intro h
            cases h
          · intro h
            cases h

theorem object_goc_authorization (ictx : ObjC.IdsCtx) (cv : ObjC.ConvCtx)
    (store : List ObjC.Object) (id : String) (authed : Option String)
    (props : ObjC.Props) (obj : ObjC.Object) (orig : ObjC.AS1C)
    (hfound : store.find? (fun g => g.id == id) = some obj)
    (has1 : obj.as1 cv = some orig) :
    (authed = none
      → ObjC.get_or_create ictx cv store id authed props
          = .error .assertionFailed)
    ∧ (∀ a l, authed = some a → obj.source_protocol = some l
       → ictx.isKnownProto l = true
       → ictx.normalize_user_id l a ∉ ObjC.ownersOf ictx l orig id
       → ictx.profile_id l a ∉ ObjC.ownersOf ictx l orig id
       → ObjC.get_or_create ictx cv store id authed props = .error .forbidden)
    ∧ (∀ a l, authed = some a → obj.source_protocol = some l
       → ictx.isKnownProto l = true
       → (ictx.normalize_user_id l a ∈ ObjC.ownersOf ictx l orig id
          ∨ ictx.profile_id l a ∈ ObjC.ownersOf ictx l orig id)
       → ∀ e, ObjC.get_or_create ictx cv store id authed props = .error e
       → e ≠ .forbidden)
    ∧ (∀ e, ObjC.get_or_create ictx cv store id authed props = .error e
       → ObjC.get_or_create_store ictx cv store id authed props = store)
    ∧ (ObjC.GocErr.forbidden ≠ ObjC.GocErr.assertionFailed
       ∧ ObjC.GocErr.forbidden ≠ ObjC.GocErr.valueError) := by
  refine ⟨?_, ?_, ?_, ?_, by decide, by decide⟩
  · intro hnone
    subst hnone
    have hauth : ObjC.authCheck ictx cv obj none id = .error .assertionFailed := by
      unfold ObjC.authCheck
      rw [has1]
    unfold ObjC.get_or_create
    rw [hfound]
    dsimp only
    rw [hauth]
  · intro a l ha hl hk hn hp
    subst ha
    have hauth : ObjC.authCheck ictx cv obj (some a) id = .error .forbidden := by
      unfold ObjC.authCheck
      rw [has1]
      dsimp only
      rw [hl]
      dsimp only
      have hk2 : (!ictx.isKnownProto l) = false := by rw [hk]; rfl
      rw [hk2]
      rw [if_neg Bool.false_ne_true]
      rw [if_neg (by rintro (h | h); exact hn h; exact hp h)]
    unfold ObjC.get_or_create
    rw [hfound]
    dsimp only
    rw [hauth]
  · intro a l ha hl hk hin e he
    subst ha
    have hauth : ObjC.authCheck ictx cv obj (some a) id = .ok () := by
      unfold ObjC.authCheck
      rw [has1]
      dsimp only
      rw [hl]
      dsimp only
      have hk2 : (!ictx.isKnownProto l) = false := by rw [hk]; rfl
      rw [hk2]
      rw [if_neg Bool.false_ne_true]
      rw [if_pos hin]
    unfold ObjC.get_or_create at he
    rw [hfound] at he
    dsimp only at he
    rw [hauth] at he
    dsimp only at he
    cases hpre : (((if props.suppliesWhole then obj.clear else obj).populate
        props).prePut ictx) with
    | some e2 =>
      rw [hpre] at he
      injection he with he2
      rw [he2] at hpre
      exact prePut_never_forbidden ictx _ e hpre
    | none =>
      rw [hpre] at he
      cases he
  · intro e he
    unfold ObjC.get_or_create_store
    rw [he]

/-- C2 witness: the forbidden rejection with a non-owner actor, the owner
acceptance, and the unchanged store, at the concrete AS2-backed object. -/
theorem object_goc_authorization_witness :
    ObjC.get_or_create ObjC.demoIds ObjC.demoConv [ObjC.demoStored] "x"
        (some "mallory") ObjC.demoSwitchProps = .error .forbidden
    ∧ ObjC.get_or_create_store ObjC.demoIds ObjC.demoConv [ObjC.demoStored]
        "x" (some "mallory") ObjC.demoSwitchProps = [ObjC.demoStored]
    ∧ ObjC.get_or_create ObjC.demoIds ObjC.demoConv [ObjC.demoStored] "x"
        none ObjC.demoSwitchProps = .error .assertionFailed := by
  have h := object_goc_authorization ObjC.demoIds ObjC.demoConv
    [ObjC.demoStored] "x" (some "mallory") ObjC.demoSwitchProps
    ObjC.demoStored ⟨["alice"], []⟩ rfl rfl
  have hforb := h.2.1 "mallory" "fake" rfl rfl rfl (by decide) (by decide)
  have h2 := object_goc_authorization ObjC.demoIds ObjC.demoConv
    [ObjC.demoStored] "x" none ObjC.demoSwitchProps
    ObjC.demoStored ⟨["alice"], []⟩ rfl rfl
  exact ⟨hforb, h.2.2.2.1 .forbidden hforb, h2.1 rfl⟩

namespace ResolveC

/-- A reference as it appears inside an AS1 field handled by
`Object.resolve_ids`: either a bare string id/url or a structured object
carrying an optional `id` key plus other keys (modelled as string-valued
pairs; nested values are out of the rewritten shape). -/
inductive Ref where
  | str : String → Ref
  | obj : Option String → List (String × String) → Ref
deriving DecidableEq, Repr

/-- A multi-valued AS1 field as `util.get_list`/the rewrite loop see it:
absent key, JSON null, a scalar reference, or a sequence whose entries may
be null (`none`). -/
inductive FieldV where
  | absent : FieldV
  | nullv : FieldV
  | one : Ref → FieldV
  | many : List (Option Ref) → FieldV
deriving DecidableEq, Repr

/-- A tag object: `resolve_ids` rewrites the `url` of tags whose
`objectType` is `mention`. -/
structure Tag where
  objectType : Option String
  url : Option Ref
  others : List (String × String)
deriving DecidableEq, Repr

/-- The embedded `object` value of an activity: its own id plus the
actor/author/inReplyTo/tags fields that the rewrite loop also processes on
the inner object. -/
structure Inner where
  id : Option String
  actor : FieldV
  author : FieldV
  inReplyTo : FieldV
  tags : List Tag
  others : List (String × String)
deriving DecidableEq, Repr

/-- The `object` field of the outer activity: absent, JSON null, a bare
string reference, or a structured inner object. -/
inductive ObjF where
  | absent : ObjF
  | nullv : ObjF
  | str : String → ObjF
  | inner : Inner → ObjF
deriving DecidableEq, Repr

/-- The outer AS1 activity, restricted to the fields `resolve_ids`
touches. -/
structure Outer where
  id : Option String
  actor : FieldV
  author : FieldV
  inReplyTo : FieldV
  tags : List Tag
  objectF : ObjF
  others : List (String × String)
deriving DecidableEq, Repr

/-- Python `util.get_list(obj, field)`: absent and null yield the empty
sequence, a scalar yields a singleton. -/
def getListF : FieldV → List (Option Ref)
  | .absent => []
  | .nullv => []
  | .one r => [some r]
  | .many rs => rs

/-- Writing a rewritten sequence back: the source collapses a length-one
sequence to its single element (which may be null). -/
def setListF : List (Option Ref) → FieldV
  | [some r] => .one r
  | [none] => .nullv
  | l => .many l

/-- Translation of the inner `replace(val, orig_fn)` helper on a field
element (`m` composes the reverse-index lookup with `.id()`): a falsy id
returns the falsy id itself; an id the index does not map leaves the value
unchanged; a mapped id replaces a bare string wholesale and rewrites only
the `id` key of a structured value that has other non-null keys, else
collapses it to the original id string. -/
def replaceR (m : String → Option String) : Option Ref → Option Ref
  | none => none
  | some (.str s) =>
    if s = "" then some (.str s)
    else
      match m s with
      | none => some (.str s)
      | some o => some (.str o)
  | some (.obj oid others) =>
    match oid with
    | none => none
    | some i =>
      if i = "" then some (.str "")
      else
        match m i with
        | none => some (.obj oid others)
        | some o =>
          if others.any (fun p => p.2 ≠ "") then some (.obj (some o) others)
          else some (.str o)

/-- Whether one `replace` call on this element sets the `replaced` flag
(the reverse index mapped a non-falsy id). -/
def hitR (m : String → Option String) : Option Ref → Bool
  | none => false
  | some (.str s) => s ≠ "" && (m s).isSome
  | some (.obj oid _) =>
    match oid with
    | some i => i ≠ "" && (m i).isSome
    | none => false

/-- The per-field rewrite `obj[field] = [replace(val, fn) for val in
util.get_list(obj, field)]` plus the singleton collapse. -/
def replaceField (m : String → Option String) (fv : FieldV) : FieldV :=
  setListF ((getListF fv).map (replaceR m))

/-- Whether the per-field rewrite set the `replaced` flag. -/
def hitField (m : String → Option String) (fv : FieldV) : Bool :=
  (getListF fv).any (hitR m)

/-- The mention-tag url rewrite over a tag list. -/
def replaceTags (m : String → Option String) (tags : List Tag) : List Tag :=
  tags.map (fun t =>
    if t.objectType == some "mention" then { t with url := replaceR m t.url }
    else t)

/-- Whether some mention-tag url rewrite set the `replaced` flag. -/
def hitTags (m : String → Option String) (tags : List Tag) : Bool :=
  tags.any (fun t => t.objectType == some "mention" && hitR m t.url)

/-- The rewrite loop body applied to an inner object (tags, actor, author
as user copies; inReplyTo as activity copies). -/
def procInner (userM objM : String → Option String) (d : Inner) : Inner :=
  { d with
    tags := replaceTags userM d.tags
    actor := replaceField userM d.actor
    author := replaceField userM d.author
    inReplyTo := replaceField objM d.inReplyTo }

/-- Whether the loop body on an inner object set the `replaced` flag. -/
def hitInner (userM objM : String → Option String) (d : Inner) : Bool :=
  hitTags userM d.tags || hitField userM d.actor || hitField userM d.author
  || hitField objM d.inReplyTo

/-- Python `as1.get_object(outer)`: the `object` field coerced to a dict —
absent/null become the empty dict, a string is wrapped as `{'id': s}`. -/
def getObjectD : ObjF → Inner
  | .absent => ⟨none, .absent, .absent, .absent, [], []⟩
  | .nullv => ⟨none, .absent, .absent, .absent, [], []⟩
  | .str s => ⟨some s, .absent, .absent, .absent, [], []⟩
  | .inner d => d

/-- Python `util.trim_nulls` on an optional string value. -/
def trimOStr : Option String → Option String
  | some s => if s = "" then none else some s
  | none => none

/-- Python `util.trim_nulls` on a reference: empty strings and empty
structures vanish. -/
def trimRef : Ref → Option Ref
  | .str s => if s = "" then none else some (.str s)
  | .obj oid others =>
    let oid2 := trimOStr oid
    let o2 := others.filter (fun p => p.2 ≠ "")
    if oid2 == none && o2.isEmpty then none else some (.obj oid2 o2)

/-- Python `util.trim_nulls` on a multi-valued field: null entries and
trimmed-away entries vanish; an empty result removes the key. Sequences
are not collapsed by trimming. -/
def trimField : FieldV → FieldV
  | .absent => .absent
  | .nullv => .absent
  | .one r =>
    match trimRef r with
    | some r2 => .one r2
    | none => .absent
  | .many rs =>
    let t := rs.filterMap (fun ov => ov.bind trimRef)
    if t.isEmpty then .absent else .many (t.map some)

/-- Python `util.trim_nulls` on a tag. -/
def trimTag (t : Tag) : Option Tag :=
  let ot := trimOStr t.objectType
  let u := t.url.bind trimRef
  let o2 := t.others.filter (fun p => p.2 ≠ "")
  if ot == none && u == none && o2.isEmpty then none else some ⟨ot, u, o2⟩

/-- Python `util.trim_nulls` on a tag list. -/
def trimTags (ts : List Tag) : List Tag := ts.filterMap trimTag

/-- Python `util.trim_nulls` on an inner object. -/
def trimInner (d : Inner) : Inner :=
  ⟨trimOStr d.id, trimField d.actor, trimField d.author, trimField d.inReplyTo,
   trimTags d.tags, d.others.filter (fun p => p.2 ≠ "")⟩

/-- Whether a trimmed inner object is the empty dict (removed by the
enclosing trim). -/
def innerIsEmpty (d : Inner) : Bool :=
  d.id == none && d.actor == FieldV.absent && d.author == FieldV.absent
  && d.inReplyTo == FieldV.absent && d.tags.isEmpty && d.others.isEmpty

/-- Python `util.trim_nulls` on the object field. -/
def trimObjF : ObjF → ObjF
  | .absent => .absent
  | .nullv => .absent
  | .str s => if s = "" then .absent else .str s
  | .inner d =>
    let d2 := trimInner d
    if innerIsEmpty d2 then .absent else .inner d2

/-- Python `util.trim_nulls` on the outer activity. -/
def trimOuter (o : Outer) : Outer :=
  ⟨trimOStr o.id, trimField o.actor, trimField o.author,
   trimField o.inReplyTo, trimTags o.tags, trimObjF o.objectF,
   o.others.filter (fun p => p.2 ≠ "")⟩

/-- The `trim_nulls(val).keys() > {'id'}` test for the inner object dict:
any non-null key besides `id` — another non-empty plain key, a field that
survives trimming, or a surviving tag. -/
def innerHasOther (d : Inner) : Bool :=
  d.others.any (fun p => p.2 ≠ "")
  || !(trimField d.actor == FieldV.absent)
  || !(trimField d.author == FieldV.absent)
  || !(trimField d.inReplyTo == FieldV.absent)
  || !(trimTags d.tags).isEmpty

/-- The `replace` helper applied at the object position (the argument is
always the dict form produced by `get_object`). -/
def replaceObjPos (m : String → Option String) (d : Inner) : ObjF :=
  match d.id with
  | none => .nullv
  | some i =>
    if i = "" then .str ""
    else
      match m i with
      | none => .inner d
      | some o =>
        if innerHasOther d then .inner { d with id := some o } else .str o

/-- Whether the object-position `replace` set the `replaced` flag. -/
def hitObjPos (m : String → Option String) (d : Inner) : Bool :=
  match d.id with
  | some i => i ≠ "" && (m i).isSome
  | none => false

/-- The full in-place rewrite pass of `resolve_ids` once the early-return
guards have passed: resolve the object position first as an activity copy,
then as a user copy; run the tag/actor/author/inReplyTo loop on the outer
and on the inner dict (the processed inner is visible in the result only
when the object position kept its dict form; Python mutates the aliased
dict). Returns the processed outer and the `replaced` flag. -/
def resolveCore (objM userM : String → Option String) (outer0 : Outer) :
    Outer × Bool :=
  let inner0 := getObjectD outer0.objectF
  let hit1 := hitObjPos objM inner0
  let objRes := if hit1 then replaceObjPos objM inner0
    else replaceObjPos userM inner0
  let hitObj := hit1 || hitObjPos userM inner0
  let innerMid : Inner :=
    match objRes with
    | .inner d => d
    | _ => inner0
  let outerProc : Outer :=
    { outer0 with
      tags := replaceTags userM outer0.tags
      actor := replaceField userM outer0.actor
      author := replaceField userM outer0.author
      inReplyTo := replaceField objM outer0.inReplyTo
      objectF :=
        match objRes with
        | .inner d => .inner (procInner userM objM d)
        | x => x }
  let replaced := hitObj
    || hitTags userM outer0.tags || hitField userM outer0.actor
    || hitField userM outer0.author || hitField objM outer0.inReplyTo
    || hitInner userM objM innerMid
  (outerProc, replaced)

/-- Translation of `Object.resolve_ids` on an object whose canonical form
is its stored `our_as1` (`a0`): unwrap (`uf`, the external bridge-subdomain
stripper from `common.py`) with an early persist when it changed anything;
return unchanged when the source protocol is unregistered; run the rewrite
pass; persist the trimmed result exactly when the `replaced` flag was set.
In-place dict mutation is modelled copy-on-write; the returned pair is the
final stored `our_as1` and the `replaced` flag. -/
def resolve_ids (objM userM : String → Option String) (hasProto : Bool)
    (uf : Outer → Outer) (a0 : Outer) : Outer × Bool :=
  let outer0 := uf a0
  if !hasProto then
    ((if outer0 ≠ a0 then trimOuter outer0 else a0), false)
  else
    let pr := resolveCore objM userM outer0
    ((if pr.2 then trimOuter pr.1
      else if outer0 ≠ a0 then trimOuter outer0 else a0), pr.2)

/-- Claim-side rewrite of one reference, from the spec wording: a bare string
becomes the original id string when the index maps it; a structured
reference keeps its other keys and only its `id` key is rewritten;
unmapped ids are untouched. -/
def specRef (m : String → Option String) : Ref → Ref
  | .str s =>
    match m s with
    | some o => .str o
    | none => .str s
  | .obj oid others =>
    match oid with
    | some i =>
      match m i with
      | some o => .obj (some o) others
      | none => .obj oid others
    | none => .obj oid others

/-- Shape of a rewritten field list: a singleton sequence collapses to a
scalar, an empty field is absent, anything else stays a sequence. -/
def specOfList : List (Option Ref) → FieldV
  | [some r] => .one r
  | l => if l.isEmpty then .absent else .many l

/-- Claim-side rewrite of a multi-valued field: every element rewritten by
`specRef`, a singleton sequence collapsed to a scalar, an empty field
absent. -/
def specField (m : String → Option String) (fv : FieldV) : FieldV :=
  specOfList ((getListF fv).map (Option.map (specRef m)))

/-- Claim-side rewrite of the tag list: mention urls rewritten by
`specRef`. -/
def specTags (m : String → Option String) (tags : List Tag) : List Tag :=
  tags.map (fun t =>
    if t.objectType == some "mention" then { t with url := t.url.map (specRef m) }
    else t)

/-- The non-falsy id carried by a field element, if any. -/
def idOfRef : Option Ref → Option String
  | some (.str s) => if s = "" then none else some s
  | some (.obj (some i) _) => if i = "" then none else some i
  | _ => none

/-- The rewritable ids of a field. -/
def fieldIds (fv : FieldV) : List String := (getListF fv).filterMap idOfRef

/-- The rewritable mention-url ids of a tag list. -/
def mentionIds (tags : List Tag) : List String :=
  tags.filterMap (fun t =>
    if t.objectType == some "mention" then idOfRef t.url else none)

/-- The rewritable id at the object position. -/
def objPosId : ObjF → Option String
  | .str s => if s = "" then none else some s
  | .inner d =>
    match d.id with
    | some i => if i = "" then none else some i
    | none => none
  | _ => none

/-- Whether the map resolves some id of the list. -/
def anyMapped (m : String → Option String) (ids : List String) : Bool :=
  ids.any (fun i => (m i).isSome)

/-- Claim-side characterization of "at least one id in the touched
positions is mapped by the reverse index": the object-position id against
the activity index with user-index fallback; actor/author/mention urls
(at both levels) against the user index; inReplyTo (both levels) against
the activity index. -/
def someHit (objM userM : String → Option String) (o : Outer) : Bool :=
  (match objPosId o.objectF with
   | some i => (objM i).isSome || (userM i).isSome
   | none => false)
  || anyMapped userM (mentionIds o.tags)
  || anyMapped userM (fieldIds o.actor) || anyMapped userM (fieldIds o.author)
  || anyMapped objM (fieldIds o.inReplyTo)
  || (match o.objectF with
      | .inner d =>
          anyMapped userM (mentionIds d.tags)
          || anyMapped userM (fieldIds d.actor)
          || anyMapped userM (fieldIds d.author)
          || anyMapped objM (fieldIds d.inReplyTo)
      | _ => false)

/-- Well-formedness of a reference for the persisted-shape statement: a
non-empty bare string, or a structured reference with a non-empty id and
at least one other key, all other values non-empty (so trimming preserves
the shape). -/
def refWf : Ref → Bool
  | .str s => s ≠ ""
  | .obj oid others =>
    (match oid with
     | some i => i ≠ ""
     | none => false)
    && !others.isEmpty && others.all (fun p => p.2 ≠ "")

/-- Well-formedness of a field element: a non-null well-formed
reference. -/
def optRefWf : Option Ref → Bool
  | some r => refWf r
  | none => false

/-- Well-formedness of a field. -/
def fieldWf : FieldV → Bool
  | .absent => true
  | .nullv => false
  | .one r => refWf r
  | .many rs => rs.all optRefWf

/-- Well-formedness of a tag: a non-empty objectType, a well-formed url,
non-empty other values. -/
def tagWf (t : Tag) : Bool :=
  (match t.objectType with
   | some s => s ≠ ""
   | none => false)
  && (match t.url with
      | some r => refWf r
      | none => false)
  && t.others.all (fun p => p.2 ≠ "")

/-- Well-formedness of an inner object: a non-empty id, at least one
non-empty plain key, well-formed fields and tags. -/
def innerWf (d : Inner) : Bool :=
  (match d.id with
   | some i => i ≠ ""
   | none => false)
  && !d.others.isEmpty && d.others.all (fun p => p.2 ≠ "")
  && fieldWf d.actor && fieldWf d.author && fieldWf d.inReplyTo
  && d.tags.all tagWf

/-- Well-formedness of the object field. -/
def objFWf : ObjF → Bool
  | .absent => true
  | .nullv => false
  | .str s => s ≠ ""
  | .inner d => innerWf d

/-- Well-formedness of the outer activity. -/
def outerWf (o : Outer) : Bool :=
  fieldWf o.actor && fieldWf o.author && fieldWf o.inReplyTo
  && o.tags.all tagWf && objFWf o.objectF

/-- Well-formedness of the reverse index maps: a copy id resolves to a
non-empty original id different from the copy (a copy lives in a protocol
other than its original's, per the spec glossary). -/
def mapWf (m : String → Option String) : Prop :=
  ∀ i o, m i = some o → o ≠ "" ∧ o ≠ i

/-- The first map that resolves an id, activity index before user
index (the object-position fallback order). -/
def firstMap (objM userM : String → Option String) (i : String) :
    Option String :=
  match objM i with
  | some o => some o
  | none => userM i

theorem hitR_eq (m : String → Option String) (ov : Option Ref) :
    hitR m ov = (match idOfRef ov with
      | some i => (m i).isSome
      | none => false) := by
  match ov with
  | none => rfl
  | some (.str s) =>
    by_cases h : s = ""
    · subst h
      rfl
    · simp [hitR, idOfRef, h]
  | some (.obj none others) => rfl
  | some (.obj (some i) others) =>
    by_cases h : i = ""
    · subst h
      rfl
    · simp [hitR, idOfRef, h]

theorem any_hitR_eq (m : String → Option String) (l : List (Option Ref)) :
    l.any (hitR m) = anyMapped m (l.filterMap idOfRef) := by
  induction l with
  | nil => rfl
  | cons ov t ih =>
    rw [List.any_cons, hitR_eq m ov, List.filterMap_cons]
    cases h : idOfRef ov with
    | none =>
      dsimp only
      rw [Bool.false_or]
      exact ih
    | some i =>
      dsimp only
      rw [anyMapped, List.any_cons]
      exact congrArg (fun b => (m i).isSome || b) ih

theorem hitField_eq (m : String → Option String) (fv : FieldV) :
    hitField m fv = anyMapped m (fieldIds fv) := by
  rw [hitField, fieldIds, any_hitR_eq]

theorem hitTags_eq (m : String → Option String) (tags : List Tag) :
    hitTags m tags = anyMapped m (mentionIds tags) := by
  induction tags with
  | nil => rfl
  | cons t rest ih =>
    rw [hitTags, List.any_cons, mentionIds, List.filterMap_cons]
    by_cases h : (t.objectType == some "mention") = true
    · rw [h, Bool.true_and, if_pos (rfl : (true : Bool) = true), hitR_eq]
      cases h2 : idOfRef t.url with
      | none =>
        dsimp only
        rw [Bool.false_or]
        exact ih
      | some i =>
        dsimp only
        rw [anyMapped, List.any_cons]
        exact congrArg (fun b => (m i).isSome || b) ih
    · have hf : (t.objectType == some "mention") = false := Bool.eq_false_iff.mpr h
      rw [hf, Bool.false_and, Bool.false_or, if_neg Bool.false_ne_true]
      exact ih

theorem hitObjPos_eq (m : String → Option String) (f : ObjF) :
    hitObjPos m (getObjectD f) = (match objPosId f with
      | some i => (m i).isSome
      | none => false) := by
  match f with
  | .absent => rfl
  | .nullv => rfl
  | .str s =>
    by_cases h : s = ""
    · subst h
      rfl
    · simp [hitObjPos, getObjectD, objPosId, h]
  | .inner d =>
    match h : d.id with
    | none => simp [hitObjPos, getObjectD, objPosId, h]
    | some i =>
      by_cases h2 : i = ""
      · subst h2
        simp [hitObjPos, getObjectD, objPosId, h]
      · simp [hitObjPos, getObjectD, objPosId, h, h2]

theorem hitInner_update (userM objM : String → Option String) (d : Inner)
    (x : Option String) :
    hitInner userM objM { d with id := x } = hitInner userM objM d := rfl

/-- The object-position replacement keeps the hits of the inner dict it
was handed: its only mutation is the id key, which the loop hits ignore. -/
theorem hitInner_rep (userM objM m : String → Option String) (d0 : Inner) :
    hitInner userM objM
      (match replaceObjPos m d0 with
        | .inner d => d
        | _ => d0) = hitInner userM objM d0 := by
  cases h : d0.id with
  | none =>
    simp only [replaceObjPos, h]
  | some i =>
    simp only [replaceObjPos, h]
    by_cases h2 : i = ""
    · rw [if_pos h2]
    · rw [if_neg h2]
      cases h3 : m i with
      | none => rfl
      | some o =>
        dsimp only
        by_cases h4 : innerHasOther d0 = true
        · rw [if_pos h4]
          exact hitInner_update userM objM d0 (some o)
        · rw [if_neg h4]

/-- The inner dict that the rewrite loop processes carries the hits of the
original inner object, whatever the object-position replacement
returned. -/
theorem hitInner_mid (objM userM : String → Option String) (f : ObjF) :
    hitInner userM objM
      (match (if hitObjPos objM (getObjectD f)
          then replaceObjPos objM (getObjectD f)
          else replaceObjPos userM (getObjectD f)) with
        | .inner d => d
        | _ => getObjectD f)
      = (match f with
        | .inner d => hitInner userM objM d
        | _ => false) := by
  cases f with
  | absent => rfl
  | nullv => rfl
  | str s =>
    by_cases h2 : s = ""
    · subst h2
      rfl
    · cases h3 : objM s <;> cases h4 : userM s <;>
        simp [getObjectD, hitObjPos, replaceObjPos, h2, h3, h4, innerHasOther,
          hitInner, hitTags, hitField, getListF, trimField, trimTags]
  | inner d =>
    by_cases h : hitObjPos objM (getObjectD (ObjF.inner d)) = true
    · rw [if_pos h]
      exact hitInner_rep userM objM objM d
    · rw [if_neg h]
      exact hitInner_rep userM objM userM d

theorem core_flag (objM userM : String → Option String) (o : Outer) :
    (resolveCore objM userM o).2 = someHit objM userM o := by
  have h1 : (resolveCore objM userM o).2 =
      ((hitObjPos objM (getObjectD o.objectF)
         || hitObjPos userM (getObjectD o.objectF))
       || hitTags userM o.tags || hitField userM o.actor
       || hitField userM o.author || hitField objM o.inReplyTo
       || hitInner userM objM (match (if hitObjPos objM (getObjectD o.objectF)
            then replaceObjPos objM (getObjectD o.objectF)
            else replaceObjPos userM (getObjectD o.objectF)) with
          | .inner d => d
          | _ => getObjectD o.objectF)) := rfl
  rw [h1, hitInner_mid]
  rw [hitObjPos_eq, hitObjPos_eq, hitTags_eq, hitField_eq, hitField_eq,
    hitField_eq]
  unfold someHit
  cases o.objectF with
  | absent => simp [objPosId]
  | nullv => simp [objPosId]
  | str s =>
    cases h : objPosId (ObjF.str s) with
    | none => simp [h]
    | some i => simp [h]
  | inner d =>
    dsimp only
    unfold hitInner
    rw [hitTags_eq, hitField_eq, hitField_eq, hitField_eq]
    cases h : objPosId (ObjF.inner d) with
    | none => simp [h, Bool.or_assoc]
    | some i => simp [h, Bool.or_assoc]

theorem any_of_all_nonempty {α : Type} (p : α → Bool) (l : List α)
    (hne : l.isEmpty = false) (hall : l.all p = true) : l.any p = true := by
  cases l with
  | nil => cases hne
  | cons a t =>
    rw [List.all_cons, Bool.and_eq_true] at hall
    rw [List.any_cons, hall.1, Bool.true_or]

theorem filter_pairs_id (l : List (String × String))
    (h : l.all (fun p => p.2 ≠ "") = true) :
    l.filter (fun p => p.2 ≠ "") = l := by
  rw [List.filter_eq_self]
  exact List.all_eq_true.mp h

theorem trimRef_wf (r : Ref) (h : refWf r = true) : trimRef r = some r := by
  cases r with
  | str s =>
    have hs : s ≠ "" := by simpa [refWf] using h
    simp [trimRef, hs]
  | obj oid others =>
    simp only [refWf, Bool.and_eq_true] at h
    obtain ⟨⟨hid, hne⟩, hall⟩ := h
    cases oid with
    | none => simp at hid
    | some i =>
      have hi : i ≠ "" := by simpa using hid
      simp only [trimRef, trimOStr, if_neg hi]
      rw [filter_pairs_id others hall]
      simp [hi]

theorem specRef_wf (m : String → Option String) (hm : mapWf m) (r : Ref)
    (h : refWf r = true) : refWf (specRef m r) = true := by
  cases r with
  | str s =>
    cases hms : m s with
    | none => simpa [specRef, hms] using h
    | some o =>
      have ho : o ≠ "" := (hm s o hms).1
      simp [specRef, hms, refWf, ho]
  | obj oid others =>
    simp only [refWf, Bool.and_eq_true] at h
    obtain ⟨⟨hid, hne⟩, hall⟩ := h
    cases oid with
    | none => simp at hid
    | some i =>
      cases hmi : m i with
      | none =>
        have hi : i ≠ "" := by simpa using hid
        simp only [specRef, hmi]
        rw [show refWf (Ref.obj (some i) others)
            = ((decide (i ≠ "") && !others.isEmpty)
               && others.all (fun p => decide (p.2 ≠ ""))) from rfl]
        rw [hall, decide_eq_true hi]
        rw [show (!others.isEmpty) = true from hne]
        rfl
      | some o =>
        have ho : o ≠ "" := (hm i o hmi).1
        simp only [specRef, hmi]
        rw [show refWf (Ref.obj (some o) others)
            = ((decide (o ≠ "") && !others.isEmpty)
               && others.all (fun p => decide (p.2 ≠ ""))) from rfl]
        rw [hall, decide_eq_true ho]
        rw [show (!others.isEmpty) = true from hne]
        rfl

theorem replaceR_wf (m : String → Option String) (hm : mapWf m) (r : Ref)
    (h : refWf r = true) : replaceR m (some r) = some (specRef m r) := by
  cases r with
  | str s =>
    have hs : s ≠ "" := by simpa [refWf] using h
    cases hms : m s with
    | none => simp [replaceR, specRef, hs, hms]
    | some o => simp [replaceR, specRef, hs, hms]
  | obj oid others =>
    simp only [refWf, Bool.and_eq_true] at h
    obtain ⟨⟨hid, hne⟩, hall⟩ := h
    cases oid with
    | none => simp at hid
    | some i =>
      have hi : i ≠ "" := by simpa using hid
      cases hmi : m i with
      | none => simp [replaceR, specRef, hi, hmi]
      | some o =>
        have hany : others.any (fun p => p.2 ≠ "") = true :=
          any_of_all_nonempty _ others
            (by cases hE : others.isEmpty
                · rfl
                · rw [hE] at hne; cases hne) hall
        simp only [replaceR, specRef, hmi, if_neg hi, hany]
        simp

theorem map_replaceR (m : String → Option String) (hm : mapWf m)
    (l : List (Option Ref)) (h : l.all optRefWf = true) :
    l.map (replaceR m) = l.map (Option.map (specRef m)) := by
  induction l with
  | nil => rfl
  | cons ov t ih =>
    rw [List.all_cons, Bool.and_eq_true] at h
    cases ov with
    | none => simp [optRefWf] at h
    | some r =>
      have hr : refWf r = true := by simpa [optRefWf] using h.1
      rw [List.map_cons, List.map_cons, replaceR_wf m hm r hr, ih h.2]
      rfl

theorem mapped_all_wf (m : String → Option String) (hm : mapWf m)
    (l : List (Option Ref)) (h : l.all optRefWf = true) :
    (l.map (Option.map (specRef m))).all optRefWf = true := by
  induction l with
  | nil => rfl
  | cons ov t ih =>
    rw [List.all_cons, Bool.and_eq_true] at h
    cases ov with
    | none => simp [optRefWf] at h
    | some r =>
      have hr : refWf r = true := by simpa [optRefWf] using h.1
      rw [List.map_cons, List.all_cons, Bool.and_eq_true]
      exact ⟨by simpa [optRefWf] using specRef_wf m hm r hr, ih h.2⟩

theorem trim_many_id (l : List (Option Ref)) (h : l.all optRefWf = true) :
    (l.filterMap (fun ov => ov.bind trimRef)).map some = l := by
  induction l with
  | nil => rfl
  | cons ov t ih =>
    rw [List.all_cons, Bool.and_eq_true] at h
    cases ov with
    | none => simp [optRefWf] at h
    | some r =>
      have hr : refWf r = true := by simpa [optRefWf] using h.1
      rw [List.filterMap_cons]
      have hb : (some r).bind trimRef = some r := by
        simp [Option.bind, trimRef_wf r hr]
      rw [hb, List.map_cons, ih h.2]

theorem trim_setListF (l : List (Option Ref)) (h : l.all optRefWf = true) :
    trimField (setListF l) = specOfList l := by
  cases l with
  | nil => rfl
  | cons a t0 =>
    cases t0 with
    | nil =>
      cases a with
      | none => simp [optRefWf] at h
      | some r =>
        have hr : refWf r = true := by simpa [optRefWf] using h
        simp [setListF, trimField, trimRef_wf r hr, specOfList]
    | cons b t =>
      cases a with
      | none => simp [optRefWf] at h
      | some r0 =>
        have hs : setListF (some r0 :: b :: t) = .many (some r0 :: b :: t) := rfl
        rw [hs]
        have h6 := trim_many_id (some r0 :: b :: t) h
        have hlen : ((some r0 :: b :: t).filterMap
            (fun ov => ov.bind trimRef)).isEmpty = false := by
          cases hE : (some r0 :: b :: t).filterMap (fun ov => ov.bind trimRef) with
          | nil =>
            have := congrArg List.length h6
            rw [hE] at this
            simp at this
          | cons x xs => rfl
        rw [show trimField (.many (some r0 :: b :: t))
            = (if ((some r0 :: b :: t).filterMap
                  (fun ov => ov.bind trimRef)).isEmpty
               then FieldV.absent
               else FieldV.many (((some r0 :: b :: t).filterMap
                 (fun ov => ov.bind trimRef)).map some)) from rfl]
        rw [hlen, if_neg Bool.false_ne_true, h6]
        rfl

theorem trim_replace_field (m : String → Option String) (hm : mapWf m)
    (fv : FieldV) (h : fieldWf fv = true) :
    trimField (replaceField m fv) = specField m fv := by
  cases fv with
  | absent => rfl
  | nullv => simp [fieldWf] at h
  | one r =>
    have hr : refWf r = true := by simpa [fieldWf] using h
    have h1 : replaceField m (.one r) = setListF [some (specRef m r)] := by
      simp [replaceField, getListF, replaceR_wf m hm r hr]
    rw [h1]
    have h2 : setListF [some (specRef m r)] = .one (specRef m r) := rfl
    rw [h2]
    simp [trimField, trimRef_wf _ (specRef_wf m hm r hr), specField, getListF,
      specOfList]
  | many rs =>
    have hall : rs.all optRefWf = true := by simpa [fieldWf] using h
    have h1 : replaceField m (.many rs)
        = setListF (rs.map (Option.map (specRef m))) := by
      rw [replaceField, getListF, map_replaceR m hm rs hall]
    rw [h1, trim_setListF _ (mapped_all_wf m hm rs hall)]
    rfl

theorem trimTag_replace (m : String → Option String) (hm : mapWf m) (t : Tag)
    (ht : tagWf t = true) :
    trimTag (if t.objectType == some "mention"
        then { t with url := replaceR m t.url } else t)
      = some (if t.objectType == some "mention"
        then { t with url := t.url.map (specRef m) } else t) := by
  obtain ⟨otyp, turl, toth⟩ := t
  simp only [tagWf, Bool.and_eq_true] at ht
  obtain ⟨⟨h1, h2⟩, h3⟩ := ht
  cases otyp with
  | none => simp at h1
  | some sT =>
    have hsT : sT ≠ "" := by simpa using h1
    cases turl with
    | none => simp at h2
    | some r =>
      have hr : refWf r = true := by simpa using h2
      by_cases hmen : ((some sT : Option String) == some "mention") = true
      · rw [if_pos hmen, if_pos hmen]
        dsimp only
        rw [replaceR_wf m hm r hr]
        simp only [trimTag, trimOStr, Option.map_some']
        have hu : (some (specRef m r)).bind trimRef = some (specRef m r) := by
          simp [Option.bind, trimRef_wf _ (specRef_wf m hm r hr)]
        rw [hu]
        simp only [if_neg hsT]
        rw [filter_pairs_id toth h3]
        simp
      · rw [if_neg hmen, if_neg hmen]
        simp only [trimTag, trimOStr]
        have hu : (some r).bind trimRef = some r := by
          simp [Option.bind, trimRef_wf r hr]
        rw [hu]
        simp only [if_neg hsT]
        rw [filter_pairs_id toth h3]
        simp

theorem trim_replace_tags (m : String → Option String) (hm : mapWf m)
    (tags : List Tag) (h : tags.all tagWf = true) :
    trimTags (replaceTags m tags) = specTags m tags := by
  induction tags with
  | nil => rfl
  | cons t rest ih =>
    rw [List.all_cons, Bool.and_eq_true] at h
    rw [replaceTags, List.map_cons, trimTags, List.filterMap_cons,
      trimTag_replace m hm t h.1]
    rw [specTags, List.map_cons]
    have ihr := ih h.2
    rw [trimTags, replaceTags] at ihr
    rw [ihr]
    rfl

theorem trimObjF_inner (d : Inner) :
    trimObjF (.inner d) = (if innerIsEmpty (trimInner d) then ObjF.absent
      else ObjF.inner (trimInner d)) := rfl

theorem resolve_ids_unfold (objM userM : String → Option String)
    (uf : Outer → Outer) (a0 : Outer) (huf : uf a0 = a0) :
    resolve_ids objM userM true uf a0
      = ((if (resolveCore objM userM a0).2
          then trimOuter (resolveCore objM userM a0).1 else a0),
         (resolveCore objM userM a0).2) := by
  unfold resolve_ids
  rw [huf]
  rw [if_neg (by decide : ¬((!true) = true))]
  rw [if_neg (fun hc : a0 ≠ a0 => hc rfl)]

theorem core_actor (objM userM : String → Option String) (o : Outer) :
    (resolveCore objM userM o).1.actor = replaceField userM o.actor := rfl

theorem core_author (objM userM : String → Option String) (o : Outer) :
    (resolveCore objM userM o).1.author = replaceField userM o.author := rfl

theorem core_inReplyTo (objM userM : String → Option String) (o : Outer) :
    (resolveCore objM userM o).1.inReplyTo = replaceField objM o.inReplyTo := rfl

theorem core_tags (objM userM : String → Option String) (o : Outer) :
    (resolveCore objM userM o).1.tags = replaceTags userM o.tags := rfl

theorem core_objectF (objM userM : String → Option String) (o : Outer) :
    (resolveCore objM userM o).1.objectF =
      (match (if hitObjPos objM (getObjectD o.objectF)
          then replaceObjPos objM (getObjectD o.objectF)
          else replaceObjPos userM (getObjectD o.objectF)) with
        | ObjF.inner d => ObjF.inner (procInner userM objM d)
        | x => x) := rfl

theorem trimOuter_actor (o : Outer) :
    (trimOuter o).actor = trimField o.actor := rfl

theorem trimOuter_author (o : Outer) :
    (trimOuter o).author = trimField o.author := rfl

theorem trimOuter_inReplyTo (o : Outer) :
    (trimOuter o).inReplyTo = trimField o.inReplyTo := rfl

theorem trimOuter_tags (o : Outer) :
    (trimOuter o).tags = trimTags o.tags := rfl

theorem trimOuter_objectF (o : Outer) :
    (trimOuter o).objectF = trimObjF o.objectF := rfl

theorem innerHasOther_of_wf (d : Inner) (h : innerWf d = true) :
    innerHasOther d = true := by
  simp only [innerWf, Bool.and_eq_true] at h
  obtain ⟨⟨⟨⟨⟨⟨hid, hne⟩, hall⟩, hfa⟩, hfau⟩, hfi⟩, htg⟩ := h
  have hany : d.others.any (fun p => p.2 ≠ "") = true :=
    any_of_all_nonempty _ d.others
      (by cases hE : d.others.isEmpty
          · rfl
          · rw [hE] at hne; cases hne) hall
  unfold innerHasOther
  rw [hany]
  rfl

theorem trimInner_proc (userM objM : String → Option String)
    (hu : mapWf userM) (ho : mapWf objM) (d : Inner) (x : Option String)
    (hfa : fieldWf d.actor = true) (hfau : fieldWf d.author = true)
    (hfi : fieldWf d.inReplyTo = true) (htg : d.tags.all tagWf = true)
    (hoth : d.others.all (fun p => p.2 ≠ "") = true) :
    trimInner (procInner userM objM { d with id := x })
      = ⟨trimOStr x, specField userM d.actor, specField userM d.author,
         specField objM d.inReplyTo, specTags userM d.tags, d.others⟩ := by
  show (⟨trimOStr x,
      trimField (replaceField userM d.actor),
      trimField (replaceField userM d.author),
      trimField (replaceField objM d.inReplyTo),
      trimTags (replaceTags userM d.tags),
      d.others.filter (fun p => p.2 ≠ "")⟩ : Inner) = _
  rw [trim_replace_field userM hu d.actor hfa,
    trim_replace_field userM hu d.author hfau,
    trim_replace_field objM ho d.inReplyTo hfi,
    trim_replace_tags userM hu d.tags htg,
    filter_pairs_id d.others hoth]

end ResolveC

/-- C7: `resolve_ids`, on a well-formed canonical form with no
bridge-subdomain wrapping and well-formed reverse-index maps, (a) persists
the rewritten structure into the stored content exactly when at least one
id in the object, actor, author, inReplyTo or mention-tag url positions is
mapped by the reverse index (mapped ids change, since a copy id differs
from its original id); (b) leaves the stored content untouched otherwise;
and (c) on persist, rewrites every one of those references per the spec
mechanics: a bare string becomes the original id string, a structured
reference keeps its other keys and only its id key is rewritten, unmapped
ids are untouched, and singleton sequences collapse to scalars — at the
outer and at the embedded-object level, with the embedded object resolved
first against the activity index and then against the user index. -/
theorem resolve_ids_rewrites_copies (objM userM : String → Option String)
    (uf : ResolveC.Outer → ResolveC.Outer) (a0 : ResolveC.Outer)
    (hobj : ResolveC.mapWf objM) (huser : ResolveC.mapWf userM)
    (huf : uf a0 = a0) (hwf : ResolveC.outerWf a0 = true) :
    ((ResolveC.resolve_ids objM userM true uf a0).2
        = ResolveC.someHit objM userM a0)
    ∧ ((ResolveC.resolve_ids objM userM true uf a0).2 = false
        → (ResolveC.resolve_ids objM userM true uf a0).1 = a0)
    ∧ ((ResolveC.resolve_ids objM userM true uf a0).2 = true
        → (ResolveC.resolve_ids objM userM true uf a0).1.actor
            = ResolveC.specField userM a0.actor
          ∧ (ResolveC.resolve_ids objM userM true uf a0).1.author
            = ResolveC.specField userM a0.author
          ∧ (ResolveC.resolve_ids objM userM true uf a0).1.inReplyTo
            = ResolveC.specField objM a0.inReplyTo
          ∧ (ResolveC.resolve_ids objM userM true uf a0).1.tags
            = ResolveC.specTags userM a0.tags
          ∧ (a0.objectF = ResolveC.ObjF.absent
              → (ResolveC.resolve_ids objM userM true uf a0).1.objectF
                = ResolveC.ObjF.absent)
          ∧ (∀ s, a0.objectF = ResolveC.ObjF.str s
              → (ResolveC.resolve_ids objM userM true uf a0).1.objectF
                = (match ResolveC.firstMap objM userM s with
                  | some o => ResolveC.ObjF.str o
                  | none => ResolveC.ObjF.inner
                      ⟨some s, .absent, .absent, .absent, [], []⟩))
          ∧ (∀ d, a0.objectF = ResolveC.ObjF.inner d
              → (ResolveC.resolve_ids objM userM true uf a0).1.objectF
                = ResolveC.ObjF.inner
                    ⟨(match d.id with
                      | some i =>
                        (match ResolveC.firstMap objM userM i with
                         | some o => some o
                         | none => some i)
                      | none => none),
                     ResolveC.specField userM d.actor,
                     ResolveC.specField userM d.author,
                     ResolveC.specField objM d.inReplyTo,
                     ResolveC.specTags userM d.tags,
                     d.others⟩)) := by
  have hru := ResolveC.resolve_ids_unfold objM userM uf a0 huf
  refine ⟨?_, ?_, ?_⟩
  · rw [hru]
    exact ResolveC.core_flag objM userM a0
  · intro hfl
    rw [hru] at hfl ⊢
    dsimp only at hfl ⊢
    rw [if_neg (by rw [hfl]; exact Bool.false_ne_true)]
  · intro hfl
    rw [hru] at hfl ⊢
    dsimp only at hfl ⊢
    rw [if_pos hfl]
    have hw := hwf
    simp only [ResolveC.outerWf, Bool.and_eq_true] at hw
    obtain ⟨⟨⟨⟨hwa, hwau⟩, hwi⟩, hwt⟩, hwo⟩ := hw
    refine ⟨?_, ?_, ?_, ?_, ?_, ?_, ?_⟩
    · rw [ResolveC.trimOuter_actor, ResolveC.core_actor]
      exact ResolveC.trim_replace_field userM huser a0.actor hwa
    · rw [ResolveC.trimOuter_author, ResolveC.core_author]
      exact ResolveC.trim_replace_field userM huser a0.author hwau
    · rw [ResolveC.trimOuter_inReplyTo, ResolveC.core_inReplyTo]
      exact ResolveC.trim_replace_field objM hobj a0.inReplyTo hwi
    · rw [ResolveC.trimOuter_tags, ResolveC.core_tags]
      exact ResolveC.trim_replace_tags userM huser a0.tags hwt
    · intro habs
      rw [ResolveC.trimOuter_objectF, ResolveC.core_objectF, habs]
      rfl
    · intro str hstr
      rw [ResolveC.trimOuter_objectF, ResolveC.core_objectF, hstr]
      have hs : str ≠ "" := by
        rw [hstr] at hwo
        simpa [ResolveC.objFWf] using hwo
      cases hm1 : objM str with
      | some o =>
        have ho : o ≠ "" := (hobj str o hm1).1
        have hfm : ResolveC.firstMap objM userM str = some o := by
          simp [ResolveC.firstMap, hm1]
        have hhit : ResolveC.hitObjPos objM
            (ResolveC.getObjectD (ResolveC.ObjF.str str)) = true := by
          simp [ResolveC.hitObjPos, ResolveC.getObjectD, hs, hm1]
        rw [if_pos hhit]
        have hrep : ResolveC.replaceObjPos objM
            (ResolveC.getObjectD (ResolveC.ObjF.str str))
            = ResolveC.ObjF.str o := by
          simp only [ResolveC.replaceObjPos, ResolveC.getObjectD]
          rw [if_neg hs, hm1]
          dsimp only
          rw [show ResolveC.innerHasOther
              ⟨some str, .absent, .absent, .absent, [], []⟩ = false from rfl]
          rw [if_neg Bool.false_ne_true]
        rw [hrep, hfm]
        simp [ResolveC.trimObjF, ho]
      | none =>
        have hnohit : ResolveC.hitObjPos objM
            (ResolveC.getObjectD (ResolveC.ObjF.str str)) = false := by
          simp [ResolveC.hitObjPos, ResolveC.getObjectD, hm1]
        rw [hnohit, if_neg Bool.false_ne_true]
        cases hm2 : userM str with
        | some o =>
          have ho : o ≠ "" := (huser str o hm2).1
          have hfm : ResolveC.firstMap objM userM str = some o := by
            simp [ResolveC.firstMap, hm1, hm2]
          have hrep : ResolveC.replaceObjPos userM
              (ResolveC.getObjectD (ResolveC.ObjF.str str))
              = ResolveC.ObjF.str o := by
            simp only [ResolveC.replaceObjPos, ResolveC.getObjectD]
            rw [if_neg hs, hm2]
            dsimp only
            rw [show ResolveC.innerHasOther
                ⟨some str, .absent, .absent, .absent, [], []⟩ = false from rfl]
            rw [if_neg Bool.false_ne_true]
          rw [hrep, hfm]
          simp [ResolveC.trimObjF, ho]
        | none =>
          have hfm : ResolveC.firstMap objM userM str = none := by
            simp [ResolveC.firstMap, hm1, hm2]
          have hrep : ResolveC.replaceObjPos userM
              (ResolveC.getObjectD (ResolveC.ObjF.str str))
              = ResolveC.ObjF.inner ⟨some str, .absent, .absent, .absent, [], []⟩ := by
            simp only [ResolveC.replaceObjPos, ResolveC.getObjectD]
            rw [if_neg hs, hm2]
          rw [hrep, hfm]
          show ResolveC.trimObjF (ResolveC.ObjF.inner (ResolveC.procInner userM objM
            ⟨some str, .absent, .absent, .absent, [], []⟩)) = _
          simp [ResolveC.procInner, ResolveC.replaceField, ResolveC.replaceTags,
            ResolveC.getListF, ResolveC.setListF, ResolveC.trimObjF,
            ResolveC.trimInner, ResolveC.trimField, ResolveC.trimTags,
            ResolveC.trimOStr, hs, ResolveC.innerIsEmpty]
    · intro d hinner
      rw [ResolveC.trimOuter_objectF, ResolveC.core_objectF, hinner]
      have hdw : ResolveC.innerWf d = true := by
        rw [hinner] at hwo
        simpa [ResolveC.objFWf] using hwo
      have hdw2 := hdw
      simp only [ResolveC.innerWf, Bool.and_eq_true] at hdw2
      obtain ⟨⟨⟨⟨⟨⟨hid, hne⟩, hall⟩, hfa⟩, hfau⟩, hfi⟩, htg⟩ := hdw2
      have hother := ResolveC.innerHasOther_of_wf d hdw
      cases hdid : d.id with
      | none =>
        rw [hdid] at hid
        simp at hid
      | some i =>
        have hi : i ≠ "" := by
          rw [hdid] at hid
          simpa using hid
        have hieF : ∀ x (hx : ResolveC.trimOStr x ≠ none),
            ResolveC.trimObjF (ResolveC.ObjF.inner
              (ResolveC.procInner userM objM { d with id := x }))
            = ResolveC.ObjF.inner
                ⟨ResolveC.trimOStr x, ResolveC.specField userM d.actor,
                 ResolveC.specField userM d.author,
                 ResolveC.specField objM d.inReplyTo,
                 ResolveC.specTags userM d.tags, d.others⟩ := by
          intro x hx
          rw [ResolveC.trimObjF_inner]
          rw [ResolveC.trimInner_proc userM objM huser hobj d x hfa hfau hfi htg hall]
          have hie : ResolveC.innerIsEmpty
              ⟨ResolveC.trimOStr x, ResolveC.specField userM d.actor,
               ResolveC.specField userM d.author,
               ResolveC.specField objM d.inReplyTo,
               ResolveC.specTags userM d.tags, d.others⟩ = false := by
            cases hxv : ResolveC.trimOStr x with
            | none => exact absurd hxv hx
            | some v => simp [ResolveC.innerIsEmpty, hxv]
          rw [hie, if_neg Bool.false_ne_true]
        cases hm1 : objM i with
        | some o =>
          have ho : o ≠ "" := (hobj i o hm1).1
          have hfm : ResolveC.firstMap objM userM i = some o := by
            simp [ResolveC.firstMap, hm1]
          have hhit : ResolveC.hitObjPos objM
              (ResolveC.getObjectD (ResolveC.ObjF.inner d)) = true := by
            simp [ResolveC.hitObjPos, ResolveC.getObjectD, hdid, hi, hm1]
          rw [if_pos hhit]
          have hrep : ResolveC.replaceObjPos objM
              (ResolveC.getObjectD (ResolveC.ObjF.inner d))
              = ResolveC.ObjF.inner { d with id := some o } := by
            show ResolveC.replaceObjPos objM d = _
            unfold ResolveC.replaceObjPos
            rw [hdid]
            dsimp only
            rw [if_neg hi, hm1]
            dsimp only
            rw [if_pos hother]
          rw [hrep]
          rw [hieF (some o) (by simp [ResolveC.trimOStr, ho])]
          dsimp only
          rw [hfm]
          simp [ResolveC.trimOStr, ho]
        | none =>
          have hnohit : ResolveC.hitObjPos objM
              (ResolveC.getObjectD (ResolveC.ObjF.inner d)) = false := by
            simp [ResolveC.hitObjPos, ResolveC.getObjectD, hdid, hm1]
          rw [hnohit, if_neg Bool.false_ne_true]
          cases hm2 : userM i with
          | some o =>
            have ho : o ≠ "" := (huser i o hm2).1
            have hfm : ResolveC.firstMap objM userM i = some o := by
              simp [ResolveC.firstMap, hm1, hm2]
            have hrep : ResolveC.replaceObjPos userM
                (ResolveC.getObjectD (ResolveC.ObjF.inner d))
                = ResolveC.ObjF.inner { d with id := some o } := by
              show ResolveC.replaceObjPos userM d = _
              unfold ResolveC.replaceObjPos
              rw [hdid]
              dsimp only
              rw [if_neg hi, hm2]
              dsimp only
              rw [if_pos hother]
            rw [hrep]
            rw [hieF (some o) (by simp [ResolveC.trimOStr, ho])]
            dsimp only
            rw [hfm]
            simp [ResolveC.trimOStr, ho]
          | none =>
            have hfm : ResolveC.firstMap objM userM i = none := by
              simp [ResolveC.firstMap, hm1, hm2]
            have hrep : ResolveC.replaceObjPos userM
                (ResolveC.getObjectD (ResolveC.ObjF.inner d))
                = ResolveC.ObjF.inner d := by
              show ResolveC.replaceObjPos userM d = _
              unfold ResolveC.replaceObjPos
              rw [hdid]
              dsimp only
              rw [if_neg hi, hm2]
            rw [hrep]
            rw [show (ResolveC.ObjF.inner d) = ResolveC.ObjF.inner { d with id := some i }
                from by rw [show ({ d with id := some i } : ResolveC.Inner) = d
                  from by cases d; simp_all]]
            rw [hieF (some i) (by simp [ResolveC.trimOStr, hi])]
            dsimp only
            rw [hfm]
            simp [ResolveC.trimOStr, hi]

/-- A reverse activity index mapping one bridged post copy to its
original. -/
def demoObjMap : String → Option String :=
  fun i => if i = "at://did:plc:x/app.bsky.feed.post/9"
    then some "https://orig.example/post/9" else none

/-- A reverse user index mapping one bridged user copy to its original. -/
def demoUserMap : String → Option String :=
  fun i => if i = "at://did:plc:u" then some "https://inst.example/@u" else none

/-- A reply activity whose actor and inReplyTo hold copy ids. -/
def demoOuter : ResolveC.Outer :=
  { id := some "https://mas.to/@a/1"
    actor := .one (.str "at://did:plc:u")
    author := .absent
    inReplyTo := .one (.str "at://did:plc:x/app.bsky.feed.post/9")
    tags := []
    objectF := .inner ⟨some "https://mas.to/@a/1#obj", .absent, .absent,
      .absent, [], [("content", "hi")]⟩
    others := [] }

/-- C7 witness: the theorem applied at the concrete reply — the rewrite
persists, the inReplyTo copy id becomes the original id, and the actor
copy id becomes the original user id. -/
theorem resolve_ids_rewrites_copies_witness :
    ResolveC.outerWf demoOuter = true
    ∧ (ResolveC.resolve_ids demoObjMap demoUserMap true id demoOuter).2 = true
    ∧ (ResolveC.resolve_ids demoObjMap demoUserMap true id demoOuter).1.inReplyTo
        = ResolveC.specField demoObjMap demoOuter.inReplyTo
    ∧ ResolveC.specField demoObjMap demoOuter.inReplyTo
        = .one (.str "https://orig.example/post/9")
    ∧ (ResolveC.resolve_ids demoObjMap demoUserMap true id demoOuter).1.actor
        = .one (.str "https://inst.example/@u") := by
  have hmo : ResolveC.mapWf demoObjMap := by
    intro i o h
    unfold demoObjMap at h
    by_cases hc : i = "at://did:plc:x/app.bsky.feed.post/9"
    · rw [if_pos hc] at h
      injection h with h2
      subst hc
      rw [← h2]
      exact ⟨by decide, by decide⟩
    · rw [if_neg hc] at h
      cases h
  have hmu : ResolveC.mapWf demoUserMap := by
    intro i o h
    unfold demoUserMap at h
    by_cases hc : i = "at://did:plc:u"
    · rw [if_pos hc] at h
      injection h with h2
      subst hc
      rw [← h2]
      exact ⟨by decide, by decide⟩
    · rw [if_neg hc] at h
      cases h
  have h := resolve_ids_rewrites_copies demoObjMap demoUserMap id demoOuter
    hmo hmu rfl (by decide)
  have hflag : (ResolveC.resolve_ids demoObjMap demoUserMap true id demoOuter).2
      = true := by
    rw [h.1]
    decide
  have hc := h.2.2 hflag
  refine ⟨by decide, hflag, hc.2.2.1, by decide, ?_⟩
  rw [hc.1]
  decide

/-- C1 counterexample: a user whose profile summary contains `#nobridge`
and whose `enabled_protocols` is non-empty, yet whose derived status is
`blocked` (not `opt-out`), because the avatar spam-filter gate of its
protocol fires before the `#nobridge` check. This refutes the claim that
every user with the marker has status `opt-out`. -/
theorem status_nobridge_claim_counterexample :
    strIn "#nobridge" "#nobridge please" = true
    ∧ StatusC.nobridgeBlockedUser.enabled_protocols ≠ []
    ∧ StatusC.status 1000 100 StatusC.nobridgeBlockedUser = some "blocked"
    ∧ StatusC.status 1000 100 StatusC.nobridgeBlockedUser ≠ some "opt-out" := by
  refine ⟨rfl, by decide, rfl, by decide⟩

/-- C1 (amended): for every user with a loaded profile that passes the
avatar, name and account-age spam-filter gates, a `#nobridge` marker in the
profile summary or display name forces status `opt-out`, even when
`enabled_protocols` is non-empty; and absent the marker, a non-empty
`enabled_protocols` yields no status (explicit opt-in is checked before the
public-visibility and `#nobot` checks). -/
theorem status_nobridge_overrides_optin (now oldAge : Nat) (u : StatusC.User)
    (p : StatusC.Profile) (hp : u.profile = some p)
    (hav : ¬(u.REQUIRES_AVATAR = true ∧ p.image = false))
    (hnm : ¬(u.REQUIRES_NAME = true ∧ StatusC.nameMissing u p = true))
    (hold : ¬(u.REQUIRES_OLD_ACCOUNT = true ∧ StatusC.tooNew now oldAge p = true)) :
    ((strIn "#nobridge" p.summaryText || strIn "#nobridge" (p.displayName.getD "")) = true
       → StatusC.status now oldAge u = some "opt-out")
    ∧ (u.manual_opt_out = false
       → (strIn "#nobridge" p.summaryText || strIn "#nobridge" (p.displayName.getD "")) = false
       → u.enabled_protocols ≠ []
       → StatusC.status now oldAge u = none) := by
  unfold StatusC.status
  rw [hp]
  constructor
  · intro hmark
    by_cases hm : u.manual_opt_out
    · simp [hm]
    · simp only [hm, if_false]
      have h1 : (u.REQUIRES_AVATAR && !p.image) = false := by
        cases hA : u.REQUIRES_AVATAR <;> cases hI : p.image <;> simp_all
      have h2 : (u.REQUIRES_NAME && StatusC.nameMissing u p) = false := by
        cases hA : u.REQUIRES_NAME <;> cases hI : StatusC.nameMissing u p <;> simp_all
      have h3 : (u.REQUIRES_OLD_ACCOUNT && StatusC.tooNew now oldAge p) = false := by
        cases hA : u.REQUIRES_OLD_ACCOUNT <;> cases hI : StatusC.tooNew now oldAge p <;> simp_all
      simp [h1, h2, h3, hmark]
  · intro hm hmark hen
    have h1 : (u.REQUIRES_AVATAR && !p.image) = false := by
      cases hA : u.REQUIRES_AVATAR <;> cases hI : p.image <;> simp_all
    have h2 : (u.REQUIRES_NAME && StatusC.nameMissing u p) = false := by
      cases hA : u.REQUIRES_NAME <;> cases hI : StatusC.nameMissing u p <;> simp_all
    have h3 : (u.REQUIRES_OLD_ACCOUNT && StatusC.tooNew now oldAge p) = false := by
      cases hA : u.REQUIRES_OLD_ACCOUNT <;> cases hI : StatusC.tooNew now oldAge p <;> simp_all
    have hen2 : u.enabled_protocols.isEmpty = false := by
      cases hE : u.enabled_protocols with
      | nil => exact absurd hE hen
      | cons a l => simp [List.isEmpty]
    simp [hm, h1, h2, h3, hmark, hen2]

/-- C1 witness: the amended theorem applied to a concrete marker-carrying
opted-in user on a protocol with no spam-filter gates. -/
theorem status_nobridge_overrides_optin_witness :
    (StatusC.status 1000 100
      { id := "https://inst/@a"
        handle := some "@a@inst"
        manual_opt_out := false
        enabled_protocols := ["atproto"]
        REQUIRES_AVATAR := false
        REQUIRES_NAME := false
        REQUIRES_OLD_ACCOUNT := false
        profile := some
          { image := true
            displayName := some "Alice"
            published := none
            summaryText := "bio with #nobridge inside"
            isPublic := true } } = some "opt-out") := by
  exact (status_nobridge_overrides_optin 1000 100 _ _ rfl
    (by decide) (by decide) (by decide)).1 (by decide)

/-- C10: `get_copy` on a User returns the key id whenever the queried
protocol label equals the user protocol label (copies need not contain a
matching Target), and otherwise returns the uri of the first Target whose
protocol matches the queried label or abbreviation (none when no Target
matches); likewise for an Object with its `source_protocol` compared
against both label and abbreviation. -/
theorem get_copy_native_and_first_match (u : CopyC.User) (o : CopyC.Object)
    (p : CopyC.Proto) :
    (u.LABEL = p.LABEL → u.get_copy p = some u.keyId)
    ∧ (u.LABEL ≠ p.LABEL
       → u.get_copy p = (u.copies.find? (CopyC.matchesProto p)).map Target.uri)
    ∧ (o.nativeMatch p = true → o.get_copy p = some o.keyId)
    ∧ (o.nativeMatch p = false
       → o.get_copy p = (o.copies.find? (CopyC.matchesProto p)).map Target.uri) := by
  refine ⟨?_, ?_, ?_, ?_⟩
  · intro h
    simp [CopyC.User.get_copy, h]
  · intro h
    have : (u.LABEL == p.LABEL) = false := by
      simp [beq_iff_eq]; exact h
    simp [CopyC.User.get_copy, this]
  · intro h
    simp [CopyC.Object.get_copy, h]
  · intro h
    simp [CopyC.Object.get_copy, h]

/-- C10 witness: a user queried in its own protocol with an empty copies
set still yields its key id; a foreign protocol yields the first
matching copy. -/
theorem get_copy_native_and_first_match_witness :
    (CopyC.User.get_copy
        { keyId := "alice.com", LABEL := "web", copies := [] }
        { LABEL := "web", ABBREV := "web" } = some "alice.com")
    ∧ (CopyC.Object.get_copy
        { keyId := "https://x/1", source_protocol := some "activitypub",
          copies := [⟨"at://did:plc:a/app.bsky.feed.post/1", "atproto"⟩] }
        { LABEL := "atproto", ABBREV := "bsky" }
        = some "at://did:plc:a/app.bsky.feed.post/1") := by
  constructor
  · exact (get_copy_native_and_first_match
      { keyId := "alice.com", LABEL := "web", copies := [] }
      { keyId := "https://x/1", source_protocol := some "activitypub", copies := [] }
      { LABEL := "web", ABBREV := "web" }).1 rfl
  · exact (get_copy_native_and_first_match
      { keyId := "alice.com", LABEL := "web", copies := [] }
      { keyId := "https://x/1", source_protocol := some "activitypub",
        copies := [⟨"at://did:plc:a/app.bsky.feed.post/1", "atproto"⟩] }
      { LABEL := "atproto", ABBREV := "bsky" }).2.2.2 (by decide)

end BridgyFed
